import Mathlib

/-!
Verification development for the LMS (Large Model Support) graph rewriter
in tensorflow_large_model_support/lms.py.

The Python source statically rewrites a TensorFlow dataflow graph: it
classifies operations into forward/backward phase by name-scope prefixes,
walks the graph from seed operations, and splices swap-out / swap-in
identity nodes (placed on the host device) between forward producers and
backward consumers, gated by control dependencies found with one of two
search strategies.

This file shallowly embeds the source: operations are records of a name,
a type, input/output tensor names and control inputs; a graph is a list of
operations; Python sets of operations are duplicate-free lists of names in
graph order (Python set iteration order is unspecified, the embedding fixes
graph order); unbounded loops (BFS worklists) take an explicit fuel that
is large enough for every terminating execution of the source.

The topological-sort oracle topos.TOPOS comes from
tensorflow_large_model_support/topos.py which is not part of the sources
under verification; it is modelled from the specification (see buildTopos)
and every theorem that depends on level data quantifies over an arbitrary
TOPOS value.
-/

namespace LMS

/-- Boolean test that one character list is a prefix of another. -/
def listPre : List Char → List Char → Bool
  | [], _ => true
  | _ :: _, [] => false
  | a :: as, b :: bs => a = b && listPre as bs

/-- Boolean test that the pattern occurs as a contiguous sublist. -/
def listSub (pat : List Char) : List Char → Bool
  | [] => listPre pat []
  | b :: bs => listPre pat (b :: bs) || listSub pat bs

/-- The name starts with the given scope string.  Models the regex
match against caret-anchored scope used by filter_ops_from_regex (scope
strings are plain name prefixes in all uses of the source). -/
def strStarts (s pre : String) : Bool := listPre pre.toList s.toList

/-- The pattern occurs somewhere in the string; models the Python
substring test (pattern in name). -/
def strHasSub (s pat : String) : Bool := listSub pat.toList s.toList

/-- Operation types excluded from swapping (lms.py ATOMIC_TYPES). -/
def ATOMIC_TYPES : List String :=
  ["Const", "Mul", "Add", "Identity", "Assign", "VariableV2",
   "Reshape", "Shape", "ShapeN", "Placeholder"]

/-- A graph operation: name, operation type, consumed tensor names,
produced tensor names, and control-input operation names. -/
structure OpData where
  name : String
  ty : String
  inputs : List String
  outputs : List String
  ctrl : List String
deriving DecidableEq, Repr

/-- A dataflow graph: the list of its operations (each operation once,
identity is by name). -/
structure Graph where
  ops : List OpData
deriving DecidableEq, Repr

/-- Names of all operations of the graph. -/
def Graph.opNames (g : Graph) : List String := g.ops.map (·.name)

/-- Look an operation up by name. -/
def Graph.findOp (g : Graph) (name : String) : Option OpData :=
  g.ops.find? (fun o => o.name = name)

/-- Output tensors of the named operation (op.outputs in the source). -/
def opOutputs (g : Graph) (name : String) : List String :=
  match g.findOp name with
  | none => []
  | some o => o.outputs

/-- Type of the named operation. -/
def opType (g : Graph) (name : String) : String :=
  match g.findOp name with
  | none => ""
  | some o => o.ty

/-- Operations that consume the tensor, in graph order.  Models
ge.util.get_consuming_ops. -/
def consumingOps (g : Graph) (t : String) : List String :=
  (g.ops.filter (fun o => t ∈ o.inputs)).map (·.name)

/-- Data successors of an operation: consumers of any of its outputs. -/
def succs (g : Graph) (name : String) : List String :=
  match g.findOp name with
  | none => []
  | some o =>
      (g.ops.filter (fun o2 => o.outputs.any (fun t => t ∈ o2.inputs))).map (·.name)

/-- One expansion step of a forward reachability walk. -/
def walkStep (g : Graph) (cur : List String) : List String :=
  cur ++ (((cur.map (succs g)).flatten).filter (fun n => n ∉ cur)).dedup

/-- Iterate the expansion step. -/
def iterWalk (g : Graph) : Nat → List String → List String
  | 0, cur => cur
  | n + 1, cur => iterWalk g n (walkStep g cur)

/-- Operations forward-reachable from the operation, itself included.
Models ge.get_forward_walk_ops(op) (data edges only, which is the
default of the library call); iterating as many steps as there are
operations reaches the fixpoint. -/
def forwardWalk (g : Graph) (op : String) : List String :=
  iterWalk g g.ops.length [op]

/-- Forward walk with the starting operation removed; models the
wrapper _get_forward_walk_ops(op, inclusive=False). -/
def forwardWalkExcl (g : Graph) (op : String) : List String :=
  (forwardWalk g op).filter (fun n => n ≠ op)

/-- One expansion step restricted to a within set. -/
def walkStepWithin (g : Graph) (within : List String) (cur : List String) :
    List String :=
  cur ++ (((cur.map (succs g)).flatten).filter
    (fun n => n ∈ within ∧ n ∉ cur)).dedup

def iterWalkWithin (g : Graph) (within : List String) :
    Nat → List String → List String
  | 0, cur => cur
  | n + 1, cur => iterWalkWithin g within n (walkStepWithin g within cur)

/-- Forward walk restricted to within_ops, starting point excluded;
models ge.get_forward_walk_ops(op, within_ops=..., inclusive=False). -/
def forwardWalkWithinExcl (g : Graph) (within : List String) (op : String) :
    List String :=
  (iterWalkWithin g within g.ops.length [op]).filter (fun n => n ≠ op)

/-- Union of the forward walks of a list of seed operations, as used to
compute reachable_ops in run (duplicate-free, in seed-then-walk order). -/
def unionWalks (g : Graph) (seeds : List String) : List String :=
  ((seeds.map (forwardWalk g)).flatten).dedup

/-- The topological-sort oracle interface: a level table (operation name
to level), the number of levels, and the backward-phase starting level.
get_order of an operation absent from the table is the sentinel -1. -/
structure TOPOS where
  levels : List (String × Int)
  size : Int
  bwStartingOrder : Int
deriving DecidableEq, Repr

/-- Level of an operation, -1 when unleveled (topos.TOPOS.get_order). -/
def TOPOS.getOrder (tp : TOPOS) (op : String) : Int :=
  match tp.levels.find? (fun p => p.1 = op) with
  | none => -1
  | some p => p.2

/-- Operations at a level (topos.TOPOS.get_ops). -/
def TOPOS.getOps (tp : TOPOS) (i : Int) : List String :=
  (tp.levels.filter (fun p => p.2 = i)).map (·.1)

/-- Modelled from the spec: the topological leveler topos.TOPOS of
tensorflow_large_model_support/topos.py is not among the sources under
src/.  Per the specification (section 4.2) it assigns every operation
reachable from the seeds an integer level respecting all data and control
dependencies (strict increase along every edge), exposes the number of
levels and the backward-phase starting level (the minimum level of a
backward operation).  Levels are computed here as longest-path depths
from the seed set, iterated to the fixpoint. -/
def relaxLevels (g : Graph) (cur : List (String × Int)) : List (String × Int) :=
  g.ops.filterMap (fun o =>
    let self : Int :=
      match cur.find? (fun p => p.1 = o.name) with
      | none => -1
      | some p => p.2
    let predNames : List String :=
      ((g.ops.filter (fun p => p.outputs.any (fun t => t ∈ o.inputs))).map
        (·.name)) ++ o.ctrl
    let predLevels : List Int :=
      predNames.filterMap (fun p =>
        match cur.find? (fun q => q.1 = p) with
        | none => none
        | some q => some q.2)
    let best : Int := predLevels.foldl (fun a d => max a (d + 1)) self
    if 0 ≤ best then some (o.name, best) else none)

def iterRelax (g : Graph) : Nat → List (String × Int) → List (String × Int)
  | 0, cur => cur
  | n + 1, cur => iterRelax g n (relaxLevels g cur)

/-- Modelled from the spec: build the TOPOS oracle from the seeds and the
backward-phase set (see relaxLevels). -/
def buildTopos (g : Graph) (seeds grad : List String) : TOPOS :=
  let init0 : List (String × Int) :=
    (g.ops.filter (fun o => o.name ∈ seeds)).map (fun o => (o.name, (0 : Int)))
  let lv := iterRelax g g.ops.length init0
  let gradLevels := lv.filterMap (fun p => if p.1 ∈ grad then some p.2 else none)
  let bwStart : Int :=
    match gradLevels with
    | [] => -1
    | x :: xs => xs.foldl min x
  let maxLevel : Int :=
    match lv with
    | [] => -1
    | x :: xs => xs.foldl (fun a p => max a p.2) x.2
  { levels := lv, size := maxLevel + 1, bwStartingOrder := bwStart }

/-- The two control-dependency strategies (enum CTRLD_Strategy). -/
inductive Strategy where
  | chainRule
  | directOrder
deriving DecidableEq, Repr

/-- Strategy selection of LMS.__init__: the strings chain_rule and
direct_order select their strategy, anything else silently falls back to
the chain-rule strategy. -/
def parseStrategy (s : String) : Strategy :=
  if s = "chain_rule" then .chainRule
  else if s = "direct_order" then .directOrder
  else .chainRule

/-- Read-only planning context of a run: backward-phase set, topological
oracle, configured strategy and bounds, normalized tensor cap, fusion and
branch-swapping switches. -/
structure Ctx where
  grad : List String
  topo : TOPOS
  strategy : Strategy
  lb : Int
  ub : Int
  nTensors : Int
  fuse : Bool
  swapBranches : Bool
  branchThreshold : Int
deriving DecidableEq, Repr

/-- The list of levels examined by the direct-order strategy:
hi - 1, hi - 2, ..., lo (Python reversed(range(lo, hi))). -/
def revRange (lo hi : Int) : List Int :=
  (List.range (hi - lo).toNat).map (fun (k : Nat) => hi - 1 - (k : Int))

/-- Candidate control-dependency operations at one level for the
direct-order strategy: operations of the level whose forward-reachable
set contains the backward operation and whose name carries no
conditional-branch marker "/cond/" (lms.py lines 832-839). -/
def dirCands (tp : TOPOS) (g : Graph) (srcOp : String) (i : Int) :
    List String :=
  ((tp.getOps i).filter (fun op => srcOp ∈ forwardWalk g op)).filter
    (fun op => ¬ strHasSub op "/cond/")

/-- Scan a list of levels, returning the first operation of the first
level with a nonempty candidate list, paired with that level; (none, -1)
when every level is empty. -/
def directScan (cand : Int → List String) : List Int → Option String × Int
  | [] => (none, -1)
  | i :: rest =>
      match cand i with
      | [] => directScan cand rest
      | c :: _ => (some c, i)

/-- The direct-order strategy _do_direct_order: scan levels from
src_order - lower_b - 1 down to max(src_order - upper_b, fw_order) + 1
and return the first candidate found with its level. -/
def doDirectOrder (ctx : Ctx) (g : Graph) (fwOp srcOp : String)
    (lowerB upperB : Int) : Option String × Int :=
  let fwOrder := ctx.topo.getOrder fwOp
  let srcOrder := ctx.topo.getOrder srcOp
  let rangeUb := srcOrder - lowerB
  let rangeLb := max (srcOrder - upperB) fwOrder + 1
  directScan (dirCands ctx.topo g srcOp) (revRange rangeLb rangeUb)

/-- Set union on duplicate-free name lists (Python set union), keeping
the order of the left operand then new elements of the right. -/
def listUnion (a b : List String) : List String :=
  a ++ (b.filter (fun n => n ∉ a)).dedup

/-- Candidate collection of one chain-rule step (lms.py lines 765-778):
backward-phase consumers with level strictly between the forward and the
backward operation levels and no conditional-branch marker. -/
def chainCands (ctx : Ctx) (fwOrder bwOrder : Int) (tot : List String) :
    List String :=
  (((tot.filter (fun op => op ∈ ctx.grad)).filter
      (fun op => fwOrder < ctx.topo.getOrder op)).filter
      (fun op => ctx.topo.getOrder op < bwOrder)).filter
      (fun op => ¬ strHasSub op "/cond/")

/-- The chain-rule worklist loop (lms.py lines 750-795): two queues for
the current and the next BFS level, a closed set, and the shrinking
window.  Every enqueued operation is closed after processing and an
operation is enqueued at most once per level, so 2n + 2 fuel covers every
execution on a graph with n operations. -/
def chainLoop (ctx : Ctx) (g : Graph) (fwOrder bwOrder : Int) :
    Nat → List String → List String → List String → Int → Int →
    List String → List String
  | 0, _, _, _, _, _, res => res
  | _ + 1, [], _, _, _, _, res => res
  | fuel + 1, src :: o1, o2, closed, lb, ub, res =>
      if ub = 0 ∨ lb > ub then res
      else
        let tot := (((opOutputs g src).map (consumingOps g)).flatten).dedup
        let res' := if lb ≤ 0 then
            listUnion res (chainCands ctx fwOrder bwOrder tot) else res
        let nexts := tot.filter (fun n => n ∉ ctx.grad)
        let o2' := nexts.foldl
          (fun acc op => if op ∈ closed ∨ op ∈ acc then acc else acc ++ [op]) o2
        let closed' := closed ++ [src]
        if o1 = [] then
          if res' ≠ [] then res'
          else chainLoop ctx g fwOrder bwOrder fuel o2' [] closed'
            (lb - 1) (ub - 1) res'
        else chainLoop ctx g fwOrder bwOrder fuel o1 o2' closed' lb ub res'

/-- The chain-rule strategy _do_chain_rule: fall back to the direct-order
strategy when the backward level minus the lower bound lies before the
backward-phase starting level, otherwise run the worklist loop and return
the first collected candidate with its level. -/
def doChainRule (ctx : Ctx) (g : Graph) (fwOp bwOp : String)
    (lowerB upperB : Int) : Option String × Int :=
  let fwOrder := ctx.topo.getOrder fwOp
  let bwOrder := ctx.topo.getOrder bwOp
  if bwOrder - lowerB < ctx.topo.bwStartingOrder then
    doDirectOrder ctx g fwOp bwOp lowerB upperB
  else
    match chainLoop ctx g fwOrder bwOrder (2 * g.ops.length + 2)
        [fwOp] [] [] lowerB upperB [] with
    | [] => (none, -1)
    | op :: _ => (some op, ctx.topo.getOrder op)

/-- Control-dependency selection of _add_control_dependency (lms.py lines
635-648): reset the lower bound to 1 when it is out of range, always use
the direct-order strategy when the forward operation is itself
backward-phase, otherwise dispatch on the configured strategy. -/
def chooseCtrldOp (ctx : Ctx) (g : Graph) (fwOp bwOp : String) :
    Option String × Int :=
  let lb := if ctx.topo.getOrder bwOp - ctx.lb ≤ ctx.topo.getOrder fwOp
    then 1 else ctx.lb
  if fwOp ∈ ctx.grad then doDirectOrder ctx g fwOp bwOp lb ctx.ub
  else
    match ctx.strategy with
    | .chainRule => doChainRule ctx g fwOp bwOp lb ctx.ub
    | .directOrder => doDirectOrder ctx g fwOp bwOp lb ctx.ub

/-- Constructor arguments of LMS.__init__ relevant to the rewrite. -/
structure InitArgs where
  optimizerScopes : List String
  startingScope : Option String := none
  startingOpNames : List String := []
  exclScopes : List String := []
  inclScopes : List String := []
  exclTypes : List String := []
  inclTypes : List String := []
  lb : Int := 1
  ub : Int := 10000
  nTensors : Int := -1
  fuseSwapins : Bool := false
  ctrldStrategy : String := "chain_rule"
  swapBranches : Bool := false
  branchThreshold : Int := 0
deriving DecidableEq, Repr

/-- Configuration state of a constructed LMS object. -/
structure Conf where
  optimizerScopes : List String
  startingScope : Option String
  startingOpNames : List String
  exclScopes : List String
  inclScopes : List String
  exclTypes : List String
  inclTypes : List String
  lb : Int
  ub : Int
  nTensors : Int
  fuseSwapins : Bool
  strategy : Strategy
  swapBranches : Bool
  branchThreshold : Int
deriving DecidableEq, Repr

/-- LMS.__init__: rejects an empty optimizer-scope set, resolves the
strategy string (unknown strings fall back to chain rule), and joins the
atomic types into the excluded types. -/
def init (a : InitArgs) : Except String Conf :=
  if a.optimizerScopes = [] then
    .error "A least one optimizer scope is required."
  else
    .ok { optimizerScopes := a.optimizerScopes
          startingScope := a.startingScope
          startingOpNames := a.startingOpNames
          exclScopes := a.exclScopes
          inclScopes := a.inclScopes
          exclTypes := listUnion a.exclTypes ATOMIC_TYPES
          inclTypes := a.inclTypes
          lb := a.lb
          ub := a.ub
          nTensors := a.nTensors
          fuseSwapins := a.fuseSwapins
          strategy := parseStrategy a.ctrldStrategy
          swapBranches := a.swapBranches
          branchThreshold := a.branchThreshold }

/-- _build_gradient_ops: for each optimizer scope collect the operations
whose name starts with the scope, failing on the first scope that matches
nothing. -/
def buildGradientOps (g : Graph) : List String → Except String (List String)
  | [] => .ok []
  | scope :: rest =>
      let opsForScope :=
        (g.ops.filter (fun o => strStarts o.name scope)).map (·.name)
      if opsForScope = [] then
        .error ("No operations were found with optimizer scope " ++ scope ++ ".")
      else
        match buildGradientOps g rest with
        | .error e => .error e
        | .ok gr => .ok (listUnion opsForScope gr)

/-- Starting-operation-name resolution of _get_seed_ops: every name must
match exactly one-or-more operations, failing on the first name that
matches nothing. -/
def seedsFromNames (g : Graph) : List String → Except String (List String)
  | [] => .ok []
  | n :: rest =>
      let nameOps := (g.ops.filter (fun o => o.name = n)).map (·.name)
      if nameOps = [] then
        .error ("No starting operation was found with name " ++ n ++ ".")
      else
        match seedsFromNames g rest with
        | .error e => .error e
        | .ok more => .ok (listUnion nameOps more)

/-- Automatic seed discovery of _get_seed_ops (lms.py lines 200-224):
candidates are non-backward operations with an output consumed by a
backward operation; each candidate scores the number of other candidates
on its forward walk restricted to non-backward operations; the seeds are
the candidates achieving the maximum positive score. -/
def autoSeeds (g : Graph) (grad : List String) : List String :=
  let nonGrad := (g.ops.filter (fun o => o.name ∉ grad)).map (·.name)
  let candidates := nonGrad.filter (fun n =>
    (opOutputs g n).any (fun t => (consumingOps g t).any (fun c => c ∈ grad)))
  let scored := candidates.filterMap (fun n =>
    let ne : Int :=
      ((forwardWalkWithinExcl g nonGrad n).filter
        (fun m => m ∈ candidates)).length
    if 0 < ne then some (n, ne) else none)
  let maxN := scored.foldl (fun a p => max a p.2) (-1 : Int)
  (scored.filter (fun p => p.2 = maxN)).map (·.1)

/-- _get_seed_ops: seeds from the starting scope and the starting names
when given (each must match), otherwise automatic discovery. -/
def getSeedOps (g : Graph) (c : Conf) (grad : List String) :
    Except String (List String) :=
  let scopeRes : Except String (List String) :=
    match c.startingScope with
    | none => .ok []
    | some s =>
        let so := (g.ops.filter (fun o => strStarts o.name s)).map (·.name)
        if so = [] then
          .error ("No operations were found in starting scope " ++ s ++ ".")
        else .ok so
  match scopeRes with
  | .error e => .error e
  | .ok scopeOps =>
      match seedsFromNames g c.startingOpNames with
      | .error e => .error e
      | .ok nameOps =>
          let seeds := listUnion scopeOps nameOps
          if seeds ≠ [] then .ok seeds
          else .ok (autoSeeds g grad)

/-- Scope part of _filter_scopes_and_types: every scope must match at
least one operation of the within set, failing on the first that does
not. -/
def scopeFilterLoop (g : Graph) (within : List String) :
    List String → Except String (List String)
  | [] => .ok []
  | scope :: rest =>
      let ops := (g.ops.filter
        (fun o => o.name ∈ within ∧ strStarts o.name scope)).map (·.name)
      if ops = [] then
        .error ("No operations were found with scope " ++ scope ++ ".")
      else
        match scopeFilterLoop g within rest with
        | .error e => .error e
        | .ok more => .ok (listUnion ops more)

/-- _filter_scopes_and_types: operations of the within set selected by a
scope or carrying one of the types; a user-supplied type (one outside the
atomic set) matched by no operation is a configuration error. -/
def filterScopesAndTypes (g : Graph) (within : List String)
    (scopes types : List String) : Except String (List String) :=
  match scopeFilterLoop g within scopes with
  | .error e => .error e
  | .ok scopeOps =>
      let withinOps := g.ops.filter (fun o => o.name ∈ within)
      let typedOps := withinOps.filter (fun o => o.ty ∈ types)
      let foundTypes := typedOps.map (·.ty)
      let typeOps := typedOps.map (·.name)
      let missing := types.filter
        (fun t => t ∉ foundTypes ∧ t ∉ ATOMIC_TYPES)
      if missing ≠ [] then
        .error "No operations were found with types."
      else .ok (listUnion scopeOps typeOps)

/-- Mutable state threaded through a run: the graph, the exclusion and
inclusion sets, the relocation counter (_incpu_count), a fresh-name
counter for inserted nodes, and two event logs: swapLog records one
(producer, tensor) pair per created swap-out node, ctrlLog one
(forward op, backward op, swap-in node) triple per control-dependency
resolution. -/
structure RunState where
  g : Graph
  exclOps : List String
  inclOps : List String
  incpu : Int
  counter : Nat
  swapLog : List (String × String)
  ctrlLog : List (String × String × String)
deriving DecidableEq, Repr

/-- Initial run state over a graph. -/
def initState (g : Graph) : RunState :=
  { g := g, exclOps := [], inclOps := [], incpu := 0, counter := 0,
    swapLog := [], ctrlLog := [] }

/-- _swapped_max_tensors: the configured cap is positive and reached. -/
def swappedMaxTensors (ctx : Ctx) (st : RunState) : Bool :=
  0 < ctx.nTensors ∧ ctx.nTensors ≤ st.incpu

/-- Replace the first occurrence of a tensor in an input list (the
single-index remap of ge.sgv(...).remap_inputs([input_index(ts0)])). -/
def replaceFirst : List String → String → String → List String
  | [], _, _ => []
  | x :: xs, t, nt => if x = t then nt :: xs else x :: replaceFirst xs t nt

/-- Rewire one input slot of every operation of the dest list: its first
occurrence of the tensor is replaced by the new tensor. -/
def rewireInputs (g : Graph) (dests : List String) (t nt : String) : Graph :=
  { ops := g.ops.map (fun o =>
      if o.name ∈ dests then { o with inputs := replaceFirst o.inputs t nt }
      else o) }

/-- Add a control input to the named operation
(ge.add_control_inputs). -/
def addCtrlInput (g : Graph) (dest c : String) : Graph :=
  { ops := g.ops.map (fun o =>
      if o.name = dest then { o with ctrl := o.ctrl ++ [c] } else o) }

/-- Fresh name of the k-th inserted swap-out node (tf.identity with name
lms/swapout uniquifies; the embedding uses the insertion counter). -/
def swapoutName (k : Nat) : String := "lms/swapout_" ++ toString k

/-- Fresh name of the k-th inserted swap-in node. -/
def swapinName (k : Nat) : String := "lms/swapin_" ++ toString k

/-- Output tensor of the k-th inserted swap-in node. -/
def swapinOut (k : Nat) : String := swapinName k ++ ":0"

/-- _add_swapout: append a fresh host identity node reading the swapped
tensor, mark it excluded, and log the (producer, tensor) pair.  The
relocation counter is incremented by the caller, as in the source. -/
def addSwapout (st : RunState) (src t : String) : RunState × String :=
  let name := swapoutName st.counter
  let outT := name ++ ":0"
  let node : OpData :=
    { name := name, ty := "Identity", inputs := [t], outputs := [outT],
      ctrl := [] }
  ({ st with
      g := { ops := st.g.ops ++ [node] }
      exclOps := st.exclOps ++ [name]
      counter := st.counter + 1
      swapLog := (src, t) :: st.swapLog }, name)

/-- _add_swapin: append a fresh host identity node reading the swap-out
node output, rewire the matching input slot of the destination to it,
and mark the new node excluded. -/
def addSwapin (st : RunState) (so dest t : String) : RunState × String :=
  let name := swapinName st.counter
  let outT := swapinOut st.counter
  let soOut := (opOutputs st.g so).headD ""
  let node : OpData :=
    { name := name, ty := "Identity", inputs := [soOut], outputs := [outT],
      ctrl := [] }
  let g1 : Graph := { ops := st.g.ops ++ [node] }
  ({ st with
      g := rewireInputs g1 [dest] t outT
      exclOps := st.exclOps ++ [name]
      counter := st.counter + 1 }, name)

/-- _add_control_dependency: resolve a gating operation with
chooseCtrldOp, log the resolution, and add the control edge to the
swap-in node when a gate was found. -/
def addCtrlDep (ctx : Ctx) (st : RunState) (fwOp bwOp swapinName : String) :
    RunState :=
  let r := chooseCtrldOp ctx st.g fwOp bwOp
  let st1 := { st with ctrlLog := (fwOp, bwOp, swapinName) :: st.ctrlLog }
  match r.1 with
  | some c => { st1 with g := addCtrlInput st1.g swapinName c }
  | none => st1

/-- _fuse_swapin_ops: when at least two frontier consumers have a level
above zero, create a single shared swap-in node, rewire every such
consumer to it, resolve one control dependency using the minimum-level
consumer of the fused set, and return the remaining (unfused) frontier. -/
def fuseSwapinOps (ctx : Ctx) (st : RunState) (src so : String)
    (bwFrontier : List String) (t : String) : RunState × List String :=
  let fuseSet := bwFrontier.filter (fun op => 0 < ctx.topo.getOrder op)
  if 2 ≤ fuseSet.length then
    let name := swapinName st.counter
    let outT := swapinOut st.counter
    let soOut := (opOutputs st.g so).headD ""
    let node : OpData :=
      { name := name, ty := "Identity", inputs := [soOut], outputs := [outT],
        ctrl := [] }
    let g1 : Graph := { ops := st.g.ops ++ [node] }
    let st1 := { st with
      g := rewireInputs g1 fuseSet t outT
      exclOps := st.exclOps ++ [name]
      counter := st.counter + 1 }
    let pick := fuseSet.foldl
      (fun acc op =>
        if ctx.topo.getOrder op < acc.1 then (ctx.topo.getOrder op, some op)
        else acc)
      ((ctx.topo.size + 1 : Int), (none : Option String))
    let st2 := match pick.2 with
      | some e => addCtrlDep ctx st1 src e name
      | none => st1
    (st2, bwFrontier.filter (fun op => op ∉ fuseSet))
  else (st, bwFrontier)

/-- _get_branch_ops: operations of the set whose level exceeds the
minimum level of the set plus the threshold. -/
def getBranchOps (ctx : Ctx) (within : List String) (threshold : Int) :
    List String :=
  match within.map ctx.topo.getOrder with
  | [] => []
  | x :: xs =>
      let minOrder := xs.foldl min x + threshold
      within.filter (fun op => minOrder < ctx.topo.getOrder op)

/-- Worklist loop of _find_new_src_op: walk forward from the original
operation, collecting every operation with a direct consumer levelled
strictly inside the backward phase, continuing past the others. -/
def findNewSrcLoop (ctx : Ctx) (g : Graph) :
    Nat → List String → List String → List String → List String
  | 0, _, _, acc => acc
  | _ + 1, [], _, acc => acc
  | fuel + 1, src :: rest, closed, acc =>
      let frontier := (((opOutputs g src).map (consumingOps g)).flatten).dedup
      let hasOrder := frontier.filter
        (fun op => ctx.topo.bwStartingOrder < ctx.topo.getOrder op)
      let acc' := if hasOrder ≠ [] ∧ src ∉ acc then acc ++ [src] else acc
      let nexts := (frontier.filter (fun n => n ∉ hasOrder)).foldl
        (fun q op => if op ∈ closed ∨ op ∈ q then q else q ++ [op]) rest
      findNewSrcLoop ctx g fuel nexts (closed ++ [src]) acc'

/-- _find_new_src_op entry: each operation is enqueued at most twice
before being closed, so 2n + 2 fuel covers every execution. -/
def findNewSrcOps (ctx : Ctx) (g : Graph) (original : String) : List String :=
  findNewSrcLoop ctx g (2 * g.ops.length + 2) [original] [] []

/-- Work items of the planner recursion in _insert_swap_nodes: visit an
operation, walk its remaining output tensors, walk the remaining
backward-frontier destinations of one tensor, or visit a list of new
source operations found by _find_new_src_op. -/
inductive PlanTask where
  | node (src : String)
  | tensors (src : String) (ts : List String)
  | dests (src : String) (so : Option String) (t : String) (ds : List String)
  | nodes (srcs : List String)
deriving DecidableEq, Repr

/-- The backward frontier of one output tensor in _insert_swap_nodes
(lms.py lines 493-510): its backward-phase consumers, joined with far
forward branches when branch swapping is enabled, with dead-end
consumers (empty exclusive forward walk) dropped. -/
def branchFrontier (ctx : Ctx) (g : Graph) (t : String) : List String :=
  let frontier := consumingOps g t
  let bwf0 := frontier.filter (fun op => op ∈ ctx.grad)
  let bwf1 := if ctx.swapBranches then
      listUnion bwf0 (getBranchOps ctx
        (frontier.filter (fun op => op ∉ ctx.grad)) ctx.branchThreshold)
    else bwf0
  bwf1.filter (fun op => forwardWalkExcl g op ≠ [])

/-- The swap-out decision of _insert_swap_nodes (lms.py lines 519-525):
create one swap-out node and count the relocation when some frontier
consumer has a known level. -/
def doSwapout (ctx : Ctx) (st : RunState) (src t : String)
    (bwf : List String) : RunState × Option String :=
  if bwf.any (fun op => 0 ≤ ctx.topo.getOrder op) then
    let r := addSwapout st src t
    ({ r.1 with incpu := r.1.incpu + 1 }, some r.2)
  else (st, none)

/-- The fusion decision of _insert_swap_nodes (lms.py lines 528-530):
fuse the swap-ins when enabled and a swap-out was created. -/
def doFusion (ctx : Ctx) (st : RunState) (src : String)
    (so : Option String) (t : String) (bwf : List String) :
    RunState × List String :=
  if ctx.fuse ∧ so.isSome then fuseSwapinOps ctx st src (so.getD "") bwf t
  else (st, bwf)

/-- The per-destination swap-in insertion of _insert_swap_nodes (lms.py
lines 540-543): add the swap-in node and resolve its control
dependency. -/
def swapinAndCtrl (ctx : Ctx) (st : RunState) (src so d t : String) :
    RunState :=
  let r := addSwapin st so d t
  addCtrlDep ctx r.1 src d r.2

/-- _insert_swap_nodes as a fueled recursion over plan tasks.  A node
visit bypasses excluded operations and respects the inclusion set, then
walks the output tensors: for each tensor the backward frontier is
computed, one swap-out is created when some consumer is levelled, fusion
may combine swap-ins, and each remaining destination either receives a
swap-in with a control dependency or (when unlevelled, with the source
outside the backward phase) triggers recursion through the new source
operations of _find_new_src_op. -/
def planStep (ctx : Ctx) : Nat → RunState → PlanTask → RunState
  | 0, st, _ => st
  | fuel + 1, st, .node src =>
      if src ∈ st.exclOps then st
      else if st.inclOps ≠ [] ∧ src ∉ st.inclOps then st
      else planStep ctx fuel st (.tensors src (opOutputs st.g src))
  | _ + 1, st, .tensors _ [] => st
  | fuel + 1, st, .tensors src (t :: ts) =>
      if swappedMaxTensors ctx st then st
      else
        let bwf := branchFrontier ctx st.g t
        if bwf = [] then planStep ctx fuel st (.tensors src ts)
        else
          let p1 := doSwapout ctx st src t bwf
          let p2 := doFusion ctx p1.1 src p1.2 t bwf
          let st3 := planStep ctx fuel p2.1 (.dests src p1.2 t p2.2)
          planStep ctx fuel st3 (.tensors src ts)
  | _ + 1, st, .dests _ _ _ [] => st
  | fuel + 1, st, .dests src so t (d :: ds) =>
      let st2 :=
        if ctx.topo.getOrder d < 0 then
          if src ∈ ctx.grad then st
          else planStep ctx fuel st (.nodes (findNewSrcOps ctx st.g d))
        else swapinAndCtrl ctx st src (so.getD "") d t
      planStep ctx fuel st2 (.dests src so t ds)
  | _ + 1, st, .nodes [] => st
  | fuel + 1, st, .nodes (s :: ss) =>
      planStep ctx fuel (planStep ctx fuel st (.node s)) (.nodes ss)

/-- Fuel that bounds the sequential depth of the planner recursion on
graphs of the given size (operations, tensors and the worklists all
bounded by the counts below); no theorem depends on its exact value. -/
def planFuel (g : Graph) : Nat :=
  (g.ops.length + (g.ops.map (·.outputs.length)).sum
    + (g.ops.map (·.inputs.length)).sum + 2) ^ 3

/-- _do_action: breadth-first worklist over operations reachable from the
seeds outside the backward phase; the next hops are computed before the
mutation, and the pass stops early once the relocation cap is reached. -/
def doActionLoop (ctx : Ctx) :
    Nat → RunState → List String → List String → RunState
  | 0, st, _, _ => st
  | _ + 1, st, [], _ => st
  | fuel + 1, st, src :: rest, closed =>
      let nextOps := ((((opOutputs st.g src).map (consumingOps st.g)).flatten
        ).dedup).filter (fun op => op ∉ ctx.grad)
      let st' := planStep ctx (planFuel st.g) st (.node src)
      if swappedMaxTensors ctx st' then st'
      else
        let open2 := nextOps.foldl
          (fun q op => if op ∈ closed ∨ op ∈ q then q else q ++ [op]) rest
        doActionLoop ctx fuel st' open2 (closed ++ [src])

/-- Outcome of LMS.run: disabled and alreadyRewritten model the bare
Python return statements (value None) of lines 295 and 322, err a raised
ValueError, done the returned set of added operations. -/
inductive RunOutcome where
  | disabled
  | alreadyRewritten
  | err (msg : String)
  | done (created : List String)
deriving DecidableEq, Repr

/-- LMS.run: disabled cap, gradient-op and seed resolution, the
already-rewritten marker check on the reachable set, the exclusion and
inclusion filters, the topological sort, the planning pass, and the
returned difference of the reachable sets (backward ops removed from
both, as in lines 332 and 347). -/
def runFull (c : Conf) (g : Graph) : RunState × RunOutcome :=
  if c.nTensors = 0 then (initState g, .disabled)
  else
    let n : Int := if c.nTensors < 0 then 0 else c.nTensors
    match buildGradientOps g c.optimizerScopes with
    | .error e => (initState g, .err e)
    | .ok grad =>
        match getSeedOps g c grad with
        | .error e => (initState g, .err e)
        | .ok seeds =>
            let reachable := unionWalks g seeds
            if reachable.any (fun op => strHasSub op "lms/swap") then
              (initState g, .alreadyRewritten)
            else
              match filterScopesAndTypes g reachable c.exclScopes
                  c.exclTypes with
              | .error e => (initState g, .err e)
              | .ok excl =>
                  match filterScopesAndTypes g reachable c.inclScopes
                      c.inclTypes with
                  | .error e => (initState g, .err e)
                  | .ok incl =>
                      let reachable2 := reachable.filter
                        (fun op => op ∉ grad)
                      let topo := buildTopos g seeds grad
                      let ctx : Ctx :=
                        { grad := grad, topo := topo, strategy := c.strategy,
                          lb := c.lb, ub := c.ub, nTensors := n,
                          fuse := c.fuseSwapins,
                          swapBranches := c.swapBranches,
                          branchThreshold := c.branchThreshold }
                      let st1 := { initState g with
                        exclOps := excl, inclOps := incl }
                      let stF := doActionLoop ctx (planFuel g) st1 seeds []
                      let newReach := (unionWalks stF.g seeds).filter
                        (fun op => op ∉ grad)
                      (stF, .done (newReach.filter
                        (fun op => op ∉ reachable2)))

/-- The graph-and-result view of LMS.run. -/
def run (c : Conf) (g : Graph) : Graph × RunOutcome :=
  ((runFull c g).1.g, (runFull c g).2)

/-- The outcome is a raised configuration error. -/
def RunOutcome.isErr : RunOutcome → Bool
  | .err _ => true
  | _ => false

/-- Side condition of the swap-out invariant: a tensors or dests task
carries a source operation that already passed the exclusion guard, so
its source lies outside the protected set E. -/
def taskSrcOK (E : List String) : PlanTask → Prop
  | .tensors src _ => src ∉ E
  | .dests src _ _ _ => src ∉ E
  | _ => True

/-- A baseline configuration used by concrete instances: optimizer scope
opt, no starting point, no user filters, defaults otherwise. -/
def confBase : Conf :=
  { optimizerScopes := ["opt"], startingScope := none,
    startingOpNames := [], exclScopes := [], inclScopes := [],
    exclTypes := ATOMIC_TYPES, inclTypes := [], lb := 1, ub := 10000,
    nTensors := -1, fuseSwapins := false, strategy := .chainRule,
    swapBranches := false, branchThreshold := 0 }

/-- A linear forward chain feeding two backward operations, used by
concrete instances. -/
def gChain : Graph :=
  ⟨[⟨"A", "Op", [], ["a:0"], []⟩,
    ⟨"B", "Op", ["a:0"], ["b:0"], []⟩,
    ⟨"opt/C", "Op", ["a:0", "b:0"], ["c:0"], []⟩,
    ⟨"opt/D", "Op", ["c:0"], [], []⟩]⟩

/-- A configuration matcher of the run fails against the graph, in the
staged order of the source: the optimizer-scope resolution fails, or it
succeeds and the starting scope or name resolution fails, or both succeed
and, with no already-rewritten marker reachable, one of the exclusion or
inclusion scope-and-type filters fails. -/
def configMatchFailure (c : Conf) (g : Graph) : Prop :=
  (∃ e, buildGradientOps g c.optimizerScopes = .error e) ∨
  (∃ grad, buildGradientOps g c.optimizerScopes = .ok grad ∧
    ∃ e, getSeedOps g c grad = .error e) ∨
  (∃ grad seeds, buildGradientOps g c.optimizerScopes = .ok grad ∧
    getSeedOps g c grad = .ok seeds ∧
    (unionWalks g seeds).any (fun op => strHasSub op "lms/swap") = false ∧
    ((∃ e, filterScopesAndTypes g (unionWalks g seeds) c.exclScopes
        c.exclTypes = .error e) ∨
     (∃ excl e, filterScopesAndTypes g (unionWalks g seeds) c.exclScopes
        c.exclTypes = .ok excl ∧
       filterScopesAndTypes g (unionWalks g seeds) c.inclScopes
        c.inclTypes = .error e)))

/-- The final run state of a completed (non-aborted) run, given the
resolved backward set, seeds and filter results. -/
def runDoneState (c : Conf) (g : Graph) (grad seeds excl incl : List String) :
    RunState :=
  doActionLoop
    { grad := grad, topo := buildTopos g seeds grad, strategy := c.strategy,
      lb := c.lb, ub := c.ub,
      nTensors := if c.nTensors < 0 then 0 else c.nTensors,
      fuse := c.fuseSwapins, swapBranches := c.swapBranches,
      branchThreshold := c.branchThreshold }
    (planFuel g) { initState g with exclOps := excl, inclOps := incl }
    seeds []

/-- The set returned by a completed run: operations reachable from the
seeds after the rewrite minus backward operations, minus the operations
reachable before the rewrite minus backward operations. -/
def runDonePayload (c : Conf) (g : Graph) (grad seeds excl incl : List String) :
    List String :=
  ((unionWalks (runDoneState c g grad seeds excl incl).g seeds).filter
      (fun op => op ∉ grad)).filter
    (fun op => op ∉ (unionWalks g seeds).filter (fun op => op ∉ grad))

/-- A small level table used by concrete instances of the
control-dependency strategy theorems. -/
def tpW : TOPOS := ⟨[("f", 1), ("b", 10)], 11, 5⟩

/-- A small planning context over tpW. -/
def ctxW : Ctx := ⟨[], tpW, .chainRule, 1, 10000, 0, false, false, 0⟩

/-- A level table with two leveled backward consumers, used by the
fusion instance. -/
def tp5 : TOPOS := ⟨[("opt/c", 2), ("opt/d", 3)], 4, 2⟩

/-- A fusion-enabled planning context over tp5. -/
def ctx5 : Ctx := ⟨[], tp5, .chainRule, 1, 10000, 0, true, false, 0⟩

/-- A producer with two backward consumers of the same tensor, used by
the fusion instance. -/
def g5 : Graph :=
  ⟨[⟨"so", "Identity", ["t:0"], ["so:0"], []⟩,
    ⟨"opt/c", "Op", ["t:0"], ["c:0"], []⟩,
    ⟨"opt/d", "Op", ["t:0"], ["d:0"], []⟩]⟩

/-- Constructor arguments used by the atomic-exclusion instance. -/
def aC9 : InitArgs := { optimizerScopes := ["opt"] }

/-- A graph with a reachable Const operation feeding the backward
phase, used by the atomic-exclusion instance. -/
def gC9 : Graph :=
  ⟨[⟨"K", "Const", [], ["k:0"], []⟩,
    ⟨"A", "Op", ["k:0"], ["a:0"], []⟩,
    ⟨"opt/C", "Op", ["k:0", "a:0"], ["c:0"], []⟩,
    ⟨"opt/D", "Op", ["c:0"], [], []⟩]⟩

section Theorems

/-- A degenerate window silences the chain-rule loop for any fuel. -/
theorem chainLoop_degenerate (ctx : Ctx) (g : Graph) (a b : Int)
    (lb ub : Int) (h : lb > ub) :
    ∀ (f : Nat) (o1 o2 closed res : List String),
      chainLoop ctx g a b f o1 o2 closed lb ub res = res := by
  intro f o1 o2 closed res
  match f, o1 with
  | 0, _ => rfl
  | _ + 1, [] => rfl
  | _ + 1, src :: o1 =>
      show (if ub = 0 ∨ lb > ub then res else _) = res
      rw [if_pos (Or.inr h)]

/-- The integer interval list is empty when its bounds cross. -/
theorem revRange_nil (lo hi : Int) (h : hi ≤ lo) : revRange lo hi = [] := by
  unfold revRange
  have : (hi - lo).toNat = 0 := by omega
  rw [this]
  rfl

/-- C8: for every pair of operations and every degenerate search window
with the lower bound strictly greater than the upper bound, both the
chain-rule strategy and the direct-order strategy return the no-candidate
result (none, -1). -/
theorem degenerate_window_no_candidate (ctx : Ctx) (g : Graph)
    (fwOp bwOp : String) (lb ub : Int) (h : lb > ub) :
    doChainRule ctx g fwOp bwOp lb ub = (none, -1) ∧
    doDirectOrder ctx g fwOp bwOp lb ub = (none, -1) := by
  have hdir : doDirectOrder ctx g fwOp bwOp lb ub = (none, -1) := by
    show directScan (dirCands ctx.topo g bwOp)
      (revRange (max (ctx.topo.getOrder bwOp - ub) (ctx.topo.getOrder fwOp) + 1)
        (ctx.topo.getOrder bwOp - lb)) = (none, -1)
    rw [revRange_nil]
    · rfl
    · have := le_max_left (ctx.topo.getOrder bwOp - ub) (ctx.topo.getOrder fwOp)
      omega
  refine ⟨?_, hdir⟩
  show (if ctx.topo.getOrder bwOp - lb < ctx.topo.bwStartingOrder then
      doDirectOrder ctx g fwOp bwOp lb ub
    else
      match chainLoop ctx g (ctx.topo.getOrder fwOp) (ctx.topo.getOrder bwOp)
          (2 * g.ops.length + 2) [fwOp] [] [] lb ub [] with
      | [] => (none, -1)
      | op :: _ => (some op, ctx.topo.getOrder op)) = (none, -1)
  split
  · exact hdir
  · rw [chainLoop_degenerate ctx g _ _ lb ub h]

/-- Closed instance for degenerate_window_no_candidate. -/
theorem degenerate_window_no_candidate_witness :
    (5 : Int) > 3 ∧
    doChainRule ⟨[], ⟨[], 0, -1⟩, .chainRule, 1, 10000, 0, false, false, 0⟩
      ⟨[]⟩ "f" "b" 5 3 = (none, -1) :=
  ⟨by decide,
    (degenerate_window_no_candidate
      ⟨[], ⟨[], 0, -1⟩, .chainRule, 1, 10000, 0, false, false, 0⟩
      ⟨[]⟩ "f" "b" 5 3 (by decide)).1⟩

/-- C7: the control-dependency resolver uses the direct-order strategy
whenever the forward operation is itself backward-phase, regardless of
the configured strategy; and, for every pair of operations and every
window, the chain-rule strategy invoked with the backward level minus
the lower bound below the backward-phase starting level returns exactly
the direct-order result for the same arguments (each conjunct assumes
only its own condition). -/
theorem ctrld_dispatch_direct_order_cases (ctx : Ctx) (g : Graph)
    (fwOp bwOp : String) (lb ub : Int) :
    (fwOp ∈ ctx.grad →
      ∀ s : Strategy,
        chooseCtrldOp { ctx with strategy := s } g fwOp bwOp =
          doDirectOrder ctx g fwOp bwOp
            (if ctx.topo.getOrder bwOp - ctx.lb ≤ ctx.topo.getOrder fwOp
              then 1 else ctx.lb) ctx.ub) ∧
    (ctx.topo.getOrder bwOp - lb < ctx.topo.bwStartingOrder →
      doChainRule ctx g fwOp bwOp lb ub =
        doDirectOrder ctx g fwOp bwOp lb ub) := by
  constructor
  · intro hgrad s
    unfold chooseCtrldOp
    rw [if_pos hgrad]
    rfl
  · intro hlow
    unfold doChainRule
    rw [if_pos hlow]

/-- Closed instance for ctrld_dispatch_direct_order_cases: the first
conjunct at a backward-phase forward operation, the second at a
non-backward forward operation whose window falls below the
backward-phase boundary. -/
theorem ctrld_dispatch_direct_order_cases_witness :
    ("b1" ∈ (["b1", "b2"] : List String)) ∧
    (tpW.getOrder "b" - 10 < tpW.bwStartingOrder) ∧
    (chooseCtrldOp
      ⟨["b1", "b2"], ⟨[("f", 0), ("b1", 2), ("b2", 3)], 4, 2⟩,
        .chainRule, 1, 10000, 0, false, false, 0⟩
      ⟨[]⟩ "b1" "b2" =
      doDirectOrder
        ⟨["b1", "b2"], ⟨[("f", 0), ("b1", 2), ("b2", 3)], 4, 2⟩,
          .chainRule, 1, 10000, 0, false, false, 0⟩
        ⟨[]⟩ "b1" "b2" 1 10000) ∧
    (doChainRule ctxW ⟨[]⟩ "f" "b" 10 10000 =
      doDirectOrder ctxW ⟨[]⟩ "f" "b" 10 10000) := by
  refine ⟨by decide, by decide, ?_, ?_⟩
  · have h := (ctrld_dispatch_direct_order_cases
      ⟨["b1", "b2"], ⟨[("f", 0), ("b1", 2), ("b2", 3)], 4, 2⟩,
        .chainRule, 1, 10000, 0, false, false, 0⟩
      ⟨[]⟩ "b1" "b2" 10 10000).1 (by decide) .chainRule
    simpa using h
  · exact (ctrld_dispatch_direct_order_cases ctxW ⟨[]⟩ "f" "b"
      10 10000).2 (by decide)

/-- C4: calling run with the relocation cap configured to zero performs
no mutation at all: the run state is the initial state over the given
graph (in particular the graph is unchanged and no swap node was
created) and the outcome models the bare Python return. -/
theorem zero_tensors_run_is_noop (c : Conf) (g : Graph)
    (h : c.nTensors = 0) :
    runFull c g = (initState g, .disabled) := by
  unfold runFull
  rw [if_pos h]

/-- Closed instance for zero_tensors_run_is_noop. -/
theorem zero_tensors_run_is_noop_witness :
    (({ optimizerScopes := ["opt"], startingScope := none,
        startingOpNames := [], exclScopes := [], inclScopes := [],
        exclTypes := ATOMIC_TYPES, inclTypes := [], lb := 1, ub := 10000,
        nTensors := 0, fuseSwapins := false, strategy := .chainRule,
        swapBranches := false, branchThreshold := 0 } : Conf).nTensors = 0) ∧
    runFull
      { optimizerScopes := ["opt"], startingScope := none,
        startingOpNames := [], exclScopes := [], inclScopes := [],
        exclTypes := ATOMIC_TYPES, inclTypes := [], lb := 1, ub := 10000,
        nTensors := 0, fuseSwapins := false, strategy := .chainRule,
        swapBranches := false, branchThreshold := 0 }
      ⟨[⟨"A", "Op", [], ["a:0"], []⟩]⟩ =
      (initState ⟨[⟨"A", "Op", [], ["a:0"], []⟩]⟩, .disabled) :=
  ⟨rfl, zero_tensors_run_is_noop _ _ rfl⟩

/-- C10: constructing an LMS object with an unrecognized
control-dependency strategy string raises no configuration error; the
value is silently replaced by the chain-rule strategy, so the constructed
configuration is identical to the one built with chain_rule. -/
theorem unknown_strategy_falls_back_to_chain_rule (a : InitArgs)
    (hscopes : a.optimizerScopes ≠ [])
    (h1 : a.ctrldStrategy ≠ "chain_rule")
    (h2 : a.ctrldStrategy ≠ "direct_order") :
    init a = init { a with ctrldStrategy := "chain_rule" } ∧
    ∃ c : Conf, init a = .ok c ∧ c.strategy = .chainRule := by
  unfold init
  rw [if_neg hscopes]
  have hp : parseStrategy a.ctrldStrategy = .chainRule := by
    unfold parseStrategy
    rw [if_neg h1, if_neg h2]
  constructor
  · show Except.ok _ = (if ({ a with ctrldStrategy := "chain_rule" } :
      InitArgs).optimizerScopes = [] then _ else _)
    rw [if_neg hscopes, hp]
    rfl
  · exact ⟨_, rfl, hp⟩

/-- Closed instance for unknown_strategy_falls_back_to_chain_rule. -/
theorem unknown_strategy_falls_back_to_chain_rule_witness :
    (({ optimizerScopes := ["opt"], ctrldStrategy := "bogus" } :
        InitArgs).optimizerScopes ≠ []) ∧
    ∃ c : Conf,
      init { optimizerScopes := ["opt"], ctrldStrategy := "bogus" } =
        .ok c ∧ c.strategy = .chainRule :=
  ⟨by decide,
    (unknown_strategy_falls_back_to_chain_rule
      { optimizerScopes := ["opt"], ctrldStrategy := "bogus" }
      (by decide) (by decide) (by decide)).2⟩

/-- C2: for every graph in which some operation reachable from the seeds
carries the structural swap-node marker, run aborts before any graph
mutation and without raising an error: the run state is still the initial
state over the given graph and the outcome is the already-rewritten
no-op (the bare Python return of line 322, not an error).  Consequently
a second run on a graph whose first run inserted reachable swap nodes
leaves that graph unchanged. -/
theorem already_rewritten_aborts_without_mutation (c : Conf) (g : Graph)
    (grad seeds : List String)
    (hne : c.nTensors ≠ 0)
    (hgrad : buildGradientOps g c.optimizerScopes = .ok grad)
    (hseeds : getSeedOps g c grad = .ok seeds)
    (hmark : (unionWalks g seeds).any
      (fun op => strHasSub op "lms/swap") = true) :
    runFull c g = (initState g, .alreadyRewritten) := by
  unfold runFull
  rw [if_neg hne]
  simp only [hgrad, hseeds, hmark, if_pos]

/-- Closed instance for already_rewritten_aborts_without_mutation. -/
theorem already_rewritten_aborts_without_mutation_witness :
    (({ optimizerScopes := ["opt"], startingScope := none,
        startingOpNames := [], exclScopes := [], inclScopes := [],
        exclTypes := ATOMIC_TYPES, inclTypes := [], lb := 1, ub := 10000,
        nTensors := -1, fuseSwapins := false, strategy := .chainRule,
        swapBranches := false, branchThreshold := 0 } : Conf).nTensors ≠ 0) ∧
    runFull
      { optimizerScopes := ["opt"], startingScope := none,
        startingOpNames := [], exclScopes := [], inclScopes := [],
        exclTypes := ATOMIC_TYPES, inclTypes := [], lb := 1, ub := 10000,
        nTensors := -1, fuseSwapins := false, strategy := .chainRule,
        swapBranches := false, branchThreshold := 0 }
      ⟨[⟨"A", "Op", [], ["a:0"], []⟩,
        ⟨"lms/swapin_9", "Identity", ["a:0"], ["b:0"], []⟩,
        ⟨"opt/C", "Op", ["a:0", "b:0"], ["c:0"], []⟩,
        ⟨"opt/D", "Op", ["c:0"], [], []⟩]⟩ =
      (initState
        ⟨[⟨"A", "Op", [], ["a:0"], []⟩,
          ⟨"lms/swapin_9", "Identity", ["a:0"], ["b:0"], []⟩,
          ⟨"opt/C", "Op", ["a:0", "b:0"], ["c:0"], []⟩,
          ⟨"opt/D", "Op", ["c:0"], [], []⟩]⟩, .alreadyRewritten) :=
  ⟨by decide,
    already_rewritten_aborts_without_mutation _ _
      ["opt/C", "opt/D"] ["A"] (by decide) rfl rfl rfl⟩

/-- C3 (amended): when LMS is enabled (nonzero relocation cap) and a
supplied optimizer scope, starting scope or name, or (provided no
already-rewritten marker preempts the filters) an exclude/include scope
or non-atomic type matches no operation, run raises a configuration
error and the graph is left completely unmutated (the run state is still
the initial state, so the error precedes every insertion). -/
theorem config_mismatch_raises_before_mutation (c : Conf) (g : Graph)
    (hne : c.nTensors ≠ 0) (hfail : configMatchFailure c g) :
    (runFull c g).1 = initState g ∧ ∃ m, (runFull c g).2 = .err m := by
  unfold runFull
  rw [if_neg hne]
  rcases hfail with ⟨e, he⟩ | ⟨grad, hgrad, e, he⟩ |
    ⟨grad, seeds, hgrad, hseeds, hmark, hf⟩
  · simp only [he]
    exact ⟨trivial, e, rfl⟩
  · simp only [hgrad, he]
    exact ⟨trivial, e, rfl⟩
  · rcases hf with ⟨e, he⟩ | ⟨excl, e, hexcl, he⟩
    · simp only [hgrad, hseeds, hmark, he, Bool.false_eq_true, if_false]
      exact ⟨trivial, e, rfl⟩
    · simp only [hgrad, hseeds, hmark, hexcl, he, Bool.false_eq_true,
        if_false]
      exact ⟨trivial, e, rfl⟩

/-- Counterexample to C3 as stated: with the relocation cap configured to
zero and an optimizer scope matching nothing in the graph, run raises no
configuration error at all (the disabled early return precedes every
check), refuting the claim for this configuration and graph. -/
theorem config_mismatch_not_raised_when_disabled :
    (buildGradientOps ⟨[⟨"A", "Op", [], ["a:0"], []⟩]⟩ ["nope"]).isOk
      = false ∧
    (runFull
      { optimizerScopes := ["nope"], startingScope := none,
        startingOpNames := [], exclScopes := [], inclScopes := [],
        exclTypes := ATOMIC_TYPES, inclTypes := [], lb := 1, ub := 10000,
        nTensors := 0, fuseSwapins := false, strategy := .chainRule,
        swapBranches := false, branchThreshold := 0 }
      ⟨[⟨"A", "Op", [], ["a:0"], []⟩]⟩).2.isErr = false := by
  constructor
  · rfl
  · rfl

/-- Closed instance for config_mismatch_raises_before_mutation. -/
theorem config_mismatch_raises_before_mutation_witness :
    (runFull
      { optimizerScopes := ["nope"], startingScope := none,
        startingOpNames := [], exclScopes := [], inclScopes := [],
        exclTypes := ATOMIC_TYPES, inclTypes := [], lb := 1, ub := 10000,
        nTensors := -1, fuseSwapins := false, strategy := .chainRule,
        swapBranches := false, branchThreshold := 0 }
      ⟨[⟨"A", "Op", [], ["a:0"], []⟩]⟩).1 =
      initState ⟨[⟨"A", "Op", [], ["a:0"], []⟩]⟩ ∧
    ∃ m, (runFull
      { optimizerScopes := ["nope"], startingScope := none,
        startingOpNames := [], exclScopes := [], inclScopes := [],
        exclTypes := ATOMIC_TYPES, inclTypes := [], lb := 1, ub := 10000,
        nTensors := -1, fuseSwapins := false, strategy := .chainRule,
        swapBranches := false, branchThreshold := 0 }
      ⟨[⟨"A", "Op", [], ["a:0"], []⟩]⟩).2 = .err m :=
  config_mismatch_raises_before_mutation _ _ (by decide)
    (Or.inl ⟨"No operations were found with optimizer scope nope.", rfl⟩)

/-- Equation for the completed-run case of runFull. -/
theorem runFull_done_eq (c : Conf) (g : Graph)
    (grad seeds excl incl : List String)
    (h0 : ¬ c.nTensors = 0)
    (hb : buildGradientOps g c.optimizerScopes = .ok grad)
    (hs : getSeedOps g c grad = .ok seeds)
    (hm : (unionWalks g seeds).any (fun op => strHasSub op "lms/swap") = false)
    (hexcl : filterScopesAndTypes g (unionWalks g seeds) c.exclScopes
      c.exclTypes = .ok excl)
    (hincl : filterScopesAndTypes g (unionWalks g seeds) c.inclScopes
      c.inclTypes = .ok incl) :
    runFull c g =
      (runDoneState c g grad seeds excl incl,
        .done (runDonePayload c g grad seeds excl incl)) := by
  unfold runFull
  rw [if_neg h0]
  simp only [hb, hs, hm, hexcl, hincl, Bool.false_eq_true, if_false]
  rfl

/-- C1 (amended): run returns the set of newly created operations in the
completed case: the post-rewrite reachable set minus the pre-rewrite
reachable set, backward-phase operations removed from both; but in the
disabled case (relocation cap zero) and in the already-rewritten case it
performs a bare Python return, yielding None rather than an empty set
(modelled by the distinct outcomes disabled and alreadyRewritten). -/
theorem run_returns_reachable_difference_or_none (c : Conf) (g : Graph) :
    ((runFull c g).2 = .disabled ↔ c.nTensors = 0) ∧
    (∀ grad seeds, c.nTensors ≠ 0 →
      buildGradientOps g c.optimizerScopes = .ok grad →
      getSeedOps g c grad = .ok seeds →
      (unionWalks g seeds).any (fun op => strHasSub op "lms/swap") = true →
      (runFull c g).2 = .alreadyRewritten) ∧
    (∀ s, (runFull c g).2 = .done s →
      ∃ grad seeds excl incl,
        buildGradientOps g c.optimizerScopes = .ok grad ∧
        getSeedOps g c grad = .ok seeds ∧
        s = ((unionWalks (runFull c g).1.g seeds).filter
              (fun op => op ∉ grad)).filter
            (fun op => op ∉ (unionWalks g seeds).filter
              (fun op => op ∉ grad)) ∧
        filterScopesAndTypes g (unionWalks g seeds) c.exclScopes
          c.exclTypes = .ok excl ∧
        filterScopesAndTypes g (unionWalks g seeds) c.inclScopes
          c.inclTypes = .ok incl) := by
  refine ⟨⟨?_, ?_⟩, ?_, ?_⟩
  · intro hd
    by_contra h0
    unfold runFull at hd
    rw [if_neg h0] at hd
    repeat
      first
        | exact RunOutcome.noConfusion hd
        | split at hd
        | dsimp only [] at hd
  · intro h0
    unfold runFull
    rw [if_pos h0]
  · intro grad seeds h0 hb hs hm
    unfold runFull
    rw [if_neg h0]
    simp only [hb, hs, hm, if_pos]
  · intro s hdone
    by_cases h0 : c.nTensors = 0
    · unfold runFull at hdone
      rw [if_pos h0] at hdone
      exact RunOutcome.noConfusion hdone
    · cases hb : buildGradientOps g c.optimizerScopes with
      | error e =>
          unfold runFull at hdone
          rw [if_neg h0] at hdone
          simp only [hb] at hdone
          exact RunOutcome.noConfusion hdone
      | ok grad =>
          cases hs : getSeedOps g c grad with
          | error e =>
              unfold runFull at hdone
              rw [if_neg h0] at hdone
              simp only [hb, hs] at hdone
              exact RunOutcome.noConfusion hdone
          | ok seeds =>
              cases hm : (unionWalks g seeds).any
                  (fun op => strHasSub op "lms/swap") with
              | true =>
                  unfold runFull at hdone
                  rw [if_neg h0] at hdone
                  simp only [hb, hs, hm, if_pos] at hdone
                  exact RunOutcome.noConfusion hdone
              | false =>
                  cases hexcl : filterScopesAndTypes g (unionWalks g seeds)
                      c.exclScopes c.exclTypes with
                  | error e =>
                      unfold runFull at hdone
                      rw [if_neg h0] at hdone
                      simp only [hb, hs, hm, hexcl, Bool.false_eq_true,
                        if_false] at hdone
                      exact RunOutcome.noConfusion hdone
                  | ok excl =>
                      cases hincl : filterScopesAndTypes g
                          (unionWalks g seeds) c.inclScopes c.inclTypes with
                      | error e =>
                          unfold runFull at hdone
                          rw [if_neg h0] at hdone
                          simp only [hb, hs, hm, hexcl, hincl,
                            Bool.false_eq_true, if_false] at hdone
                          exact RunOutcome.noConfusion hdone
                      | ok incl =>
                          have hrun := runFull_done_eq c g grad seeds excl
                            incl h0 hb hs hm hexcl hincl
                          rw [hrun] at hdone
                          have hpay : runDonePayload c g grad seeds excl incl
                              = s := by
                            simpa using hdone
                          refine ⟨grad, seeds, excl, incl, rfl, hs, ?_,
                            hexcl, hincl⟩
                          rw [hrun, ← hpay]
                          rfl

/-- Counterexample to C1 as stated: with the relocation cap configured to
zero run performs a bare return (None); it does not return the empty set
of operations. -/
theorem run_disabled_returns_none_not_empty_set :
    (runFull { confBase with nTensors := 0 }
      ⟨[⟨"opt/B", "Op", [], [], []⟩]⟩).2 = RunOutcome.disabled ∧
    RunOutcome.disabled ≠ RunOutcome.done [] :=
  ⟨rfl, by decide⟩

/-- Closed instance for run_returns_reachable_difference_or_none. -/
theorem run_returns_reachable_difference_or_none_witness :
    ∃ grad seeds excl incl,
      buildGradientOps gChain confBase.optimizerScopes = .ok grad ∧
      getSeedOps gChain confBase grad = .ok seeds ∧
      ["lms/swapout_0", "lms/swapout_2", "lms/swapin_1", "lms/swapin_3"] =
        ((unionWalks (runFull confBase gChain).1.g seeds).filter
            (fun op => op ∉ grad)).filter
          (fun op => op ∉ (unionWalks gChain seeds).filter
            (fun op => op ∉ grad)) ∧
      filterScopesAndTypes gChain (unionWalks gChain seeds)
        confBase.exclScopes confBase.exclTypes = .ok excl ∧
      filterScopesAndTypes gChain (unionWalks gChain seeds)
        confBase.inclScopes confBase.inclTypes = .ok incl :=
  (run_returns_reachable_difference_or_none confBase gChain).2.2
    ["lms/swapout_0", "lms/swapout_2", "lms/swapin_1", "lms/swapin_3"] rfl

/-- Membership in the examined-level list. -/
theorem mem_revRange {lo hi i : Int} :
    i ∈ revRange lo hi ↔ lo ≤ i ∧ i < hi := by
  unfold revRange
  constructor
  · intro h
    simp only [List.mem_map, List.mem_range] at h
    obtain ⟨k, hk, he⟩ := h
    omega
  · intro h
    simp only [List.mem_map, List.mem_range]
    exact ⟨(hi - 1 - i).toNat, by omega, by omega⟩

/-- The examined-level list is strictly decreasing. -/
theorem revRange_pairwise (lo hi : Int) :
    (revRange lo hi).Pairwise (· > ·) := by
  unfold revRange
  refine List.Pairwise.map _ (fun a b hab => ?_) (List.pairwise_lt_range _)
  dsimp only
  omega

/-- The first examined level is the upper end of the range. -/
theorem revRange_head (lo hi : Int) (h : lo < hi) :
    (revRange lo hi).head? = some (hi - 1) := by
  unfold revRange
  obtain ⟨m, hm⟩ : ∃ m, (hi - lo).toNat = m + 1 :=
    ⟨(hi - lo).toNat - 1, by omega⟩
  rw [hm, List.range_succ_eq_map]
  simp

/-- A scan over levels with no candidates anywhere returns (none, -1). -/
theorem directScan_all_empty (cand : Int → List String) :
    ∀ l, (∀ i ∈ l, cand i = []) → directScan cand l = (none, -1) := by
  intro l
  induction l with
  | nil => intro _; rfl
  | cons i rest ih =>
      intro h
      show (match cand i with
        | [] => directScan cand rest
        | c :: _ => (some c, i)) = (none, -1)
      rw [h i (List.mem_cons_self i rest)]
      exact ih (fun j hj => h j (List.mem_cons_of_mem i hj))

/-- A scan that returns no candidate returns level -1 and every examined
level was empty. -/
theorem directScan_none (cand : Int → List String) :
    ∀ l r, directScan cand l = (none, r) →
      r = -1 ∧ ∀ i ∈ l, cand i = [] := by
  intro l
  induction l with
  | nil =>
      intro r h
      exact ⟨by simpa using (congrArg Prod.snd h).symm, by simp⟩
  | cons i rest ih =>
      intro r h
      have h' : (match cand i with
        | [] => directScan cand rest
        | c :: _ => (some c, i)) = (none, r) := h
      cases hc : cand i with
      | nil =>
          rw [hc] at h'
          obtain ⟨h1, h2⟩ := ih r h'
          refine ⟨h1, fun j hj => ?_⟩
          rcases List.mem_cons.mp hj with rfl | hj
          · exact hc
          · exact h2 j hj
      | cons c cs =>
          rw [hc] at h'
          exact absurd (congrArg Prod.fst h') (by simp)

/-- A scan that returns a candidate returns it from the first examined
level with a nonempty candidate list: the level splits the list so that
every earlier level is empty. -/
theorem directScan_some (cand : Int → List String) :
    ∀ l c j, directScan cand l = (some c, j) →
      j ∈ l ∧ c ∈ cand j ∧
        ∃ l1 l2, l = l1 ++ j :: l2 ∧ ∀ i ∈ l1, cand i = [] := by
  intro l
  induction l with
  | nil =>
      intro c j h
      exact absurd (congrArg Prod.fst h) (by simp [directScan])
  | cons i rest ih =>
      intro c j h
      have h' : (match cand i with
        | [] => directScan cand rest
        | c :: _ => (some c, i)) = (some c, j) := h
      cases hc : cand i with
      | nil =>
          rw [hc] at h'
          obtain ⟨hmem, hcand, l1, l2, heq, hemp⟩ := ih c j h'
          refine ⟨List.mem_cons_of_mem i hmem, hcand, i :: l1, l2,
            by rw [heq]; rfl, fun k hk => ?_⟩
          rcases List.mem_cons.mp hk with rfl | hk
          · exact hc
          · exact hemp k hk
      | cons c0 cs =>
          rw [hc] at h'
          have hc' : c0 = c := by simpa using congrArg Prod.fst h'
          have hj : i = j := by simpa using congrArg Prod.snd h'
          subst hc' hj
          refine ⟨List.mem_cons_self i rest, ?_, [], rest, rfl, by simp⟩
          rw [hc]
          exact List.mem_cons_self c0 cs

/-- C6: the direct-order strategy examines topological levels in strictly
decreasing order starting at backwardOp level minus lowerBound minus 1,
never examines a level at or below forwardOp level nor below backwardOp
level minus upperBound plus 1, and returns an operation (with its level)
from the first examined level containing an operation whose
forward-reachable set includes backwardOp and whose name carries no
conditional-branch marker; when no examined level contains such an
operation it returns (none, -1). -/
theorem direct_order_scan_characterization (ctx : Ctx) (g : Graph)
    (fwOp bwOp : String) (lb ub : Int) :
    (∀ i ∈ revRange
        (max (ctx.topo.getOrder bwOp - ub) (ctx.topo.getOrder fwOp) + 1)
        (ctx.topo.getOrder bwOp - lb),
      ctx.topo.getOrder fwOp < i ∧ ctx.topo.getOrder bwOp - ub + 1 ≤ i ∧
        i ≤ ctx.topo.getOrder bwOp - lb - 1) ∧
    (revRange
        (max (ctx.topo.getOrder bwOp - ub) (ctx.topo.getOrder fwOp) + 1)
        (ctx.topo.getOrder bwOp - lb)).Pairwise (· > ·) ∧
    (max (ctx.topo.getOrder bwOp - ub) (ctx.topo.getOrder fwOp) + 1 <
        ctx.topo.getOrder bwOp - lb →
      (revRange
        (max (ctx.topo.getOrder bwOp - ub) (ctx.topo.getOrder fwOp) + 1)
        (ctx.topo.getOrder bwOp - lb)).head? =
        some (ctx.topo.getOrder bwOp - lb - 1)) ∧
    (∀ c j, doDirectOrder ctx g fwOp bwOp lb ub = (some c, j) →
      j ∈ revRange
        (max (ctx.topo.getOrder bwOp - ub) (ctx.topo.getOrder fwOp) + 1)
        (ctx.topo.getOrder bwOp - lb) ∧
      c ∈ dirCands ctx.topo g bwOp j ∧
      ∀ i ∈ revRange
        (max (ctx.topo.getOrder bwOp - ub) (ctx.topo.getOrder fwOp) + 1)
        (ctx.topo.getOrder bwOp - lb),
        j < i → dirCands ctx.topo g bwOp i = []) ∧
    (∀ r, doDirectOrder ctx g fwOp bwOp lb ub = (none, r) →
      r = -1 ∧ ∀ i ∈ revRange
        (max (ctx.topo.getOrder bwOp - ub) (ctx.topo.getOrder fwOp) + 1)
        (ctx.topo.getOrder bwOp - lb), dirCands ctx.topo g bwOp i = []) := by
  refine ⟨?_, revRange_pairwise _ _, fun h => revRange_head _ _ h, ?_, ?_⟩
  · intro i hi
    obtain ⟨h1, h2⟩ := mem_revRange.mp hi
    have ha := le_max_left (ctx.topo.getOrder bwOp - ub)
      (ctx.topo.getOrder fwOp)
    have hb := le_max_right (ctx.topo.getOrder bwOp - ub)
      (ctx.topo.getOrder fwOp)
    exact ⟨by omega, by omega, by omega⟩
  · intro c j h
    have h' : directScan (dirCands ctx.topo g bwOp)
        (revRange
          (max (ctx.topo.getOrder bwOp - ub) (ctx.topo.getOrder fwOp) + 1)
          (ctx.topo.getOrder bwOp - lb)) = (some c, j) := h
    obtain ⟨hmem, hcand, l1, l2, heq, hemp⟩ := directScan_some _ _ c j h'
    refine ⟨hmem, hcand, fun i hi hji => ?_⟩
    have hpw := revRange_pairwise
      (max (ctx.topo.getOrder bwOp - ub) (ctx.topo.getOrder fwOp) + 1)
      (ctx.topo.getOrder bwOp - lb)
    rw [heq] at hi hpw
    rw [List.pairwise_append] at hpw
    rcases List.mem_append.mp hi with hi1 | hi2
    · exact hemp i hi1
    · rcases List.mem_cons.mp hi2 with rfl | hi2
      · omega
      · have := List.rel_of_pairwise_cons hpw.2.1 hi2
        omega
  · intro r h
    exact directScan_none _ _ r h

/-- Closed instance for direct_order_scan_characterization. -/
theorem direct_order_scan_characterization_witness :
    (max (tpW.getOrder "b" - 4) (tpW.getOrder "f") + 1 <
      tpW.getOrder "b" - 2) ∧
    (revRange (max (tpW.getOrder "b" - 4) (tpW.getOrder "f") + 1)
      (tpW.getOrder "b" - 2)).head? = some (tpW.getOrder "b" - 2 - 1) :=
  ⟨by decide,
    (direct_order_scan_characterization ctxW ⟨[]⟩ "f" "b" 2 4).2.2.1
      (by decide)⟩

/-- Rewiring input slots changes no operation name. -/
theorem rewireInputs_names (g : Graph) (ds : List String) (t nt : String) :
    (rewireInputs g ds t nt).ops.map (·.name) = g.ops.map (·.name) := by
  unfold rewireInputs
  rw [List.map_map]
  refine List.map_congr_left (fun o _ => ?_)
  by_cases h : o.name ∈ ds <;> simp [h]

/-- Adding a control input changes no operation name. -/
theorem addCtrlInput_names (g : Graph) (d c : String) :
    (addCtrlInput g d c).ops.map (·.name) = g.ops.map (·.name) := by
  unfold addCtrlInput
  rw [List.map_map]
  refine List.map_congr_left (fun o _ => ?_)
  by_cases h : o.name = d <;> simp [h]

/-- An operation other than the swap-in node survives a control-input
addition unchanged. -/
theorem addCtrlInput_mem (g : Graph) (d c : String) (o : OpData)
    (ho : o ∈ g.ops) (hne : o.name ≠ d) : o ∈ (addCtrlInput g d c).ops := by
  unfold addCtrlInput
  have h := List.mem_map_of_mem
    (fun o => if o.name = d then { o with ctrl := o.ctrl ++ [c] } else o) ho
  dsimp only at h
  rw [if_neg hne] at h
  exact h

/-- Resolving a control dependency changes no operation name. -/
theorem addCtrlDep_names (ctx : Ctx) (st : RunState) (fw bw si : String) :
    (addCtrlDep ctx st fw bw si).g.ops.map (·.name) =
      st.g.ops.map (·.name) := by
  cases hch : (chooseCtrldOp ctx st.g fw bw).1 with
  | none =>
      unfold addCtrlDep
      simp only [hch]
  | some c =>
      unfold addCtrlDep
      simp only [hch]
      exact addCtrlInput_names _ _ _

/-- Resolving a control dependency prepends exactly one entry to the
resolution log. -/
theorem addCtrlDep_ctrlLog (ctx : Ctx) (st : RunState) (fw bw si : String) :
    (addCtrlDep ctx st fw bw si).ctrlLog = (fw, bw, si) :: st.ctrlLog := by
  cases hch : (chooseCtrldOp ctx st.g fw bw).1 with
  | none =>
      unfold addCtrlDep
      simp only [hch]
  | some c =>
      unfold addCtrlDep
      simp only [hch]

/-- An operation other than the swap-in node survives a
control-dependency resolution unchanged. -/
theorem addCtrlDep_mem (ctx : Ctx) (st : RunState) (fw bw si : String)
    (o : OpData) (ho : o ∈ st.g.ops) (hne : o.name ≠ si) :
    o ∈ (addCtrlDep ctx st fw bw si).g.ops := by
  cases hch : (chooseCtrldOp ctx st.g fw bw).1 with
  | none =>
      unfold addCtrlDep
      simp only [hch]
      exact ho
  | some c =>
      unfold addCtrlDep
      simp only [hch]
      exact addCtrlInput_mem _ _ _ o ho hne

/-- Characterization of the strict-minimum fold of _fuse_swapin_ops:
the result never exceeds the initial bound nor any listed level, and it
either keeps the initial accumulator or returns a member achieving the
minimum. -/
theorem foldl_min_spec (ord : String → Int) :
    ∀ (l : List String) (m0 : Int) (e0 : Option String),
      ((l.foldl (fun acc op => if ord op < acc.1 then (ord op, some op)
          else acc) (m0, e0)).1 ≤ m0) ∧
      (∀ op ∈ l,
        (l.foldl (fun acc op => if ord op < acc.1 then (ord op, some op)
          else acc) (m0, e0)).1 ≤ ord op) ∧
      ((l.foldl (fun acc op => if ord op < acc.1 then (ord op, some op)
          else acc) (m0, e0)) = (m0, e0) ∨
        ∃ e, (l.foldl (fun acc op => if ord op < acc.1 then (ord op, some op)
            else acc) (m0, e0)).2 = some e ∧ e ∈ l ∧
          ord e = (l.foldl (fun acc op => if ord op < acc.1 then
            (ord op, some op) else acc) (m0, e0)).1) := by
  intro l
  induction l with
  | nil =>
      intro m0 e0
      exact ⟨le_refl _, by simp, Or.inl rfl⟩
  | cons a as ih =>
      intro m0 e0
      simp only [List.foldl_cons]
      by_cases h : ord a < m0
      · rw [if_pos h]
        obtain ⟨h1, h2, h3⟩ := ih (ord a) (some a)
        refine ⟨le_trans h1 (le_of_lt h), fun op hop => ?_, ?_⟩
        · rcases List.mem_cons.mp hop with rfl | hop
          · exact h1
          · exact h2 op hop
        · rcases h3 with heq | ⟨e, he1, he2, he3⟩
          · exact Or.inr ⟨a, by rw [heq], List.mem_cons_self a as,
              by rw [heq]⟩
          · exact Or.inr ⟨e, he1, List.mem_cons_of_mem a he2, he3⟩
      · rw [if_neg h]
        obtain ⟨h1, h2, h3⟩ := ih m0 e0
        refine ⟨h1, fun op hop => ?_, ?_⟩
        · rcases List.mem_cons.mp hop with rfl | hop
          · omega
          · exact h2 op hop
        · rcases h3 with heq | ⟨e, he1, he2, he3⟩
          · exact Or.inl heq
          · exact Or.inr ⟨e, he1, List.mem_cons_of_mem a he2, he3⟩

/-- C5: for every value with at least two leveled backward-phase
frontier consumers, the fusion step creates exactly one relocation-in
node, rewires each such consumer matching input slot to that single
node, resolves exactly one control dependency whose gate target is a
consumer of minimum topological level among the fused set, and excludes
consumers with no level from fusion (returning them for individual
processing).  The hypotheses record the calling context of
_insert_swap_nodes: no frontier consumer sits at level 0 (levels grow
strictly along edges from the producer, which is itself leveled at 0 or
above), every level is within the size of the topological sort, and the
fresh swap-in name collides with no consumer name. -/
theorem fusion_creates_single_swapin (ctx : Ctx) (st : RunState)
    (src so t : String) (bwf : List String)
    (hno0 : ∀ op ∈ bwf, ctx.topo.getOrder op ≠ 0)
    (hsz : ∀ op ∈ bwf, ctx.topo.getOrder op ≤ ctx.topo.size)
    (hfresh : swapinName st.counter ∉ bwf)
    (hcard : 2 ≤ (bwf.filter (fun op => 0 ≤ ctx.topo.getOrder op)).length) :
    ((fuseSwapinOps ctx st src so bwf t).1.g.ops.map (·.name) =
      st.g.ops.map (·.name) ++ [swapinName st.counter]) ∧
    (∀ o ∈ st.g.ops,
      o.name ∈ bwf.filter (fun op => 0 ≤ ctx.topo.getOrder op) →
      { o with inputs := replaceFirst o.inputs t (swapinOut st.counter) } ∈
        (fuseSwapinOps ctx st src so bwf t).1.g.ops) ∧
    (∃ e, (fuseSwapinOps ctx st src so bwf t).1.ctrlLog =
        (src, e, swapinName st.counter) :: st.ctrlLog ∧
      e ∈ bwf.filter (fun op => 0 ≤ ctx.topo.getOrder op) ∧
      ∀ op ∈ bwf.filter (fun op => 0 ≤ ctx.topo.getOrder op),
        ctx.topo.getOrder e ≤ ctx.topo.getOrder op) ∧
    ((fuseSwapinOps ctx st src so bwf t).2 =
      bwf.filter (fun op => ctx.topo.getOrder op < 0)) := by
  have hfe : bwf.filter (fun op => decide (0 < ctx.topo.getOrder op)) =
      bwf.filter (fun op => decide (0 ≤ ctx.topo.getOrder op)) := by
    refine List.filter_congr (fun op hop => ?_)
    have h := hno0 op hop
    simp only [decide_eq_decide]
    omega
  have hcard' :
      2 ≤ (bwf.filter (fun op => decide (0 < ctx.topo.getOrder op))).length := by
    rw [hfe]; exact hcard
  obtain ⟨hm1, hm2, hm3⟩ := foldl_min_spec ctx.topo.getOrder
    (bwf.filter (fun op => decide (0 < ctx.topo.getOrder op)))
    (ctx.topo.size + 1) none
  have hne : ∃ e, (((bwf.filter (fun op => decide (0 < ctx.topo.getOrder op))).foldl
      (fun acc op => if ctx.topo.getOrder op < acc.1 then
        (ctx.topo.getOrder op, some op) else acc)
      (ctx.topo.size + 1, none)).2) = some e ∧
      e ∈ bwf.filter (fun op => decide (0 < ctx.topo.getOrder op)) ∧
      ctx.topo.getOrder e = (((bwf.filter (fun op =>
        decide (0 < ctx.topo.getOrder op))).foldl
        (fun acc op => if ctx.topo.getOrder op < acc.1 then
          (ctx.topo.getOrder op, some op) else acc)
        (ctx.topo.size + 1, none)).1) := by
    rcases hm3 with heq | he
    · exfalso
      obtain ⟨op0, hop0⟩ : ∃ op0, op0 ∈ bwf.filter
          (fun op => decide (0 < ctx.topo.getOrder op)) := by
        cases hq : bwf.filter (fun op => decide (0 < ctx.topo.getOrder op)) with
        | nil => rw [hq] at hcard'; simp at hcard'
        | cons x xs => exact ⟨x, List.mem_cons_self x xs⟩
      have h1 := hm2 op0 hop0
      have h2 := hsz op0 (List.mem_of_mem_filter hop0)
      rw [heq] at h1
      simp at h1
      omega
    · exact he
  obtain ⟨e, he1, he2, he3⟩ := hne
  unfold fuseSwapinOps
  simp only [hfe]
  rw [if_pos hcard]
  rw [← hfe]
  simp only [he1]
  refine ⟨?_, ?_, ?_, ?_⟩
  · rw [addCtrlDep_names]
    show (rewireInputs ⟨st.g.ops ++ [_]⟩ _ t _).ops.map (·.name) = _
    rw [rewireInputs_names]
    simp
  · intro o ho hof
    have hone : o.name ≠ swapinName st.counter := by
      intro hcontra
      exact hfresh (hcontra ▸ List.mem_of_mem_filter hof)
    refine addCtrlDep_mem _ _ _ _ _ _ ?_ hone
    show _ ∈ (rewireInputs ⟨st.g.ops ++ [_]⟩ _ t _).ops
    unfold rewireInputs
    have hmem : o ∈ st.g.ops ++
        [({ name := swapinName st.counter,
            ty := "Identity", inputs := [(opOutputs st.g so).headD ""],
            outputs := [swapinOut st.counter],
            ctrl := [] } : OpData)] :=
      List.mem_append_left _ ho
    have h := List.mem_map_of_mem (fun o2 =>
      if o2.name ∈ bwf.filter (fun op => decide (0 < ctx.topo.getOrder op))
      then { o2 with inputs := replaceFirst o2.inputs t (swapinOut st.counter) }
      else o2) hmem
    dsimp only at h
    rw [if_pos hof] at h
    exact h
  · exact ⟨e, by rw [addCtrlDep_ctrlLog], he2, fun op hop => by
      rw [he3]; exact hm2 op hop⟩
  · refine List.filter_congr (fun op hop => ?_)
    have h := hno0 op hop
    simp only [decide_eq_decide]
    constructor
    · intro hnot
      by_contra hlt
      simp only [List.mem_filter, decide_eq_true_eq] at hnot
      push_neg at hlt
      exact hnot ⟨hop, by omega⟩
    · intro hlt
      simp only [List.mem_filter, decide_eq_true_eq]
      intro ⟨_, hge⟩
      omega

/-- Closed instance for fusion_creates_single_swapin. -/
theorem fusion_creates_single_swapin_witness :
    2 ≤ ((["opt/c", "opt/d"] : List String).filter
      (fun op => 0 ≤ tp5.getOrder op)).length ∧
    (fuseSwapinOps ctx5 (initState g5) "a" "so" ["opt/c", "opt/d"] "t:0").2 =
      (["opt/c", "opt/d"] : List String).filter
        (fun op => tp5.getOrder op < 0) :=
  ⟨by decide,
    (fusion_creates_single_swapin ctx5 (initState g5) "a" "so" "t:0"
      ["opt/c", "opt/d"] (by decide) (by decide) (by decide)
      (by decide)).2.2.2⟩

/-- Resolving a control dependency leaves the exclusion set unchanged. -/
theorem addCtrlDep_exclOps (ctx : Ctx) (st : RunState) (fw bw si : String) :
    (addCtrlDep ctx st fw bw si).exclOps = st.exclOps := by
  cases hch : (chooseCtrldOp ctx st.g fw bw).1 with
  | none =>
      unfold addCtrlDep
      simp only [hch]
  | some c =>
      unfold addCtrlDep
      simp only [hch]

/-- Resolving a control dependency leaves the swap-out log unchanged. -/
theorem addCtrlDep_swapLog (ctx : Ctx) (st : RunState) (fw bw si : String) :
    (addCtrlDep ctx st fw bw si).swapLog = st.swapLog := by
  cases hch : (chooseCtrldOp ctx st.g fw bw).1 with
  | none =>
      unfold addCtrlDep
      simp only [hch]
  | some c =>
      unfold addCtrlDep
      simp only [hch]

/-- The fusion primitive only appends to the exclusion set. -/
theorem fuseSwapinOps_exclOps_sub (ctx : Ctx) (st : RunState)
    (src so : String) (bwf : List String) (t : String) :
    st.exclOps ⊆ (fuseSwapinOps ctx st src so bwf t).1.exclOps := by
  have hm : ∀ (x : Option String) (s1 : RunState) (nm : String),
      (match x with
        | some e => addCtrlDep ctx s1 src e nm
        | none => s1).exclOps = s1.exclOps := by
    intro x s1 nm
    cases x with
    | none => rfl
    | some e => exact addCtrlDep_exclOps ctx s1 src e nm
  simp only [fuseSwapinOps]
  split
  · rw [hm]
    exact fun a ha => List.mem_append_left _ ha
  · exact fun a ha => ha

/-- The fusion primitive never logs a swap-out. -/
theorem fuseSwapinOps_swapLog (ctx : Ctx) (st : RunState)
    (src so : String) (bwf : List String) (t : String) :
    (fuseSwapinOps ctx st src so bwf t).1.swapLog = st.swapLog := by
  have hm : ∀ (x : Option String) (s1 : RunState) (nm : String),
      (match x with
        | some e => addCtrlDep ctx s1 src e nm
        | none => s1).swapLog = s1.swapLog := by
    intro x s1 nm
    cases x with
    | none => rfl
    | some e => exact addCtrlDep_swapLog ctx s1 src e nm
  simp only [fuseSwapinOps]
  split
  · rw [hm]
  · rfl

/-- The swap-out decision only appends to the exclusion set. -/
theorem doSwapout_exclOps_sub (ctx : Ctx) (st : RunState) (src t : String)
    (bwf : List String) :
    st.exclOps ⊆ (doSwapout ctx st src t bwf).1.exclOps := by
  unfold doSwapout
  split
  · exact fun a ha => List.mem_append_left _ ha
  · exact fun a ha => ha

/-- The swap-out decision leaves the log unchanged or prepends the
(source, tensor) record of the created swap-out node. -/
theorem doSwapout_swapLog (ctx : Ctx) (st : RunState) (src t : String)
    (bwf : List String) :
    (doSwapout ctx st src t bwf).1.swapLog = st.swapLog ∨
    (doSwapout ctx st src t bwf).1.swapLog = (src, t) :: st.swapLog := by
  unfold doSwapout
  split
  · exact Or.inr rfl
  · exact Or.inl rfl

/-- The fusion decision only appends to the exclusion set. -/
theorem doFusion_exclOps_sub (ctx : Ctx) (st : RunState) (src : String)
    (so : Option String) (t : String) (bwf : List String) :
    st.exclOps ⊆ (doFusion ctx st src so t bwf).1.exclOps := by
  unfold doFusion
  split
  · exact fuseSwapinOps_exclOps_sub ctx st src _ bwf t
  · exact fun a ha => ha

/-- The fusion decision never logs a swap-out. -/
theorem doFusion_swapLog (ctx : Ctx) (st : RunState) (src : String)
    (so : Option String) (t : String) (bwf : List String) :
    (doFusion ctx st src so t bwf).1.swapLog = st.swapLog := by
  unfold doFusion
  split
  · exact fuseSwapinOps_swapLog ctx st src _ bwf t
  · rfl

/-- Per-destination swap-in insertion appends exactly the fresh swap-in
name to the exclusion set. -/
theorem swapinAndCtrl_exclOps (ctx : Ctx) (st : RunState)
    (src so d t : String) :
    (swapinAndCtrl ctx st src so d t).exclOps =
      st.exclOps ++ [swapinName st.counter] := by
  unfold swapinAndCtrl
  rw [addCtrlDep_exclOps]
  rfl

/-- Per-destination swap-in insertion never logs a swap-out. -/
theorem swapinAndCtrl_swapLog (ctx : Ctx) (st : RunState)
    (src so d t : String) :
    (swapinAndCtrl ctx st src so d t).swapLog = st.swapLog := by
  unfold swapinAndCtrl
  rw [addCtrlDep_swapLog]
  rfl

/-- The planner recursion only ever appends to the exclusion set. -/
theorem planStep_exclOps_sub (ctx : Ctx) :
    ∀ (f : Nat) (st : RunState) (task : PlanTask),
      st.exclOps ⊆ (planStep ctx f st task).exclOps := by
  intro f
  induction f with
  | zero => intro st task; exact fun a ha => ha
  | succ f ih =>
      intro st task
      cases task with
      | node src =>
          simp only [planStep]
          split
          · exact fun a ha => ha
          · split
            · exact fun a ha => ha
            · exact ih st _
      | tensors src ts0 =>
          cases ts0 with
          | nil => simp only [planStep]; exact fun a ha => ha
          | cons t ts =>
              simp only [planStep]
              split
              · exact fun a ha => ha
              · split
                · exact ih st _
                · intro a ha
                  refine ih _ (.tensors src ts) (ih _ (.dests src _ t _) ?_)
                  exact doFusion_exclOps_sub ctx _ src _ t _
                    (doSwapout_exclOps_sub ctx st src t _ ha)
      | dests src so t ds0 =>
          cases ds0 with
          | nil => simp only [planStep]; exact fun a ha => ha
          | cons d ds =>
              simp only [planStep]
              intro a ha
              refine ih _ (.dests src so t ds) ?_
              split
              · split
                · exact ha
                · exact ih st _ ha
              · rw [swapinAndCtrl_exclOps]
                exact List.mem_append_left _ ha
      | nodes ss0 =>
          cases ss0 with
          | nil => simp only [planStep]; exact fun a ha => ha
          | cons s ss =>
              simp only [planStep]
              intro a ha
              exact ih _ (.nodes ss) (ih st (.node s) ha)

/-- Every swap-out record produced by the planner recursion has a source
operation outside any set E protected by the exclusion set at the time
its task was created: a visited node is only expanded after passing the
exclusion guard, and the exclusion set only grows. -/
theorem planStep_swapLog (ctx : Ctx) (E : List String) :
    ∀ (f : Nat) (st : RunState) (task : PlanTask), E ⊆ st.exclOps →
      taskSrcOK E task →
      ∀ p ∈ (planStep ctx f st task).swapLog, p ∈ st.swapLog ∨ p.1 ∉ E := by
  intro f
  induction f with
  | zero => intro st task _ _ p hp; exact Or.inl hp
  | succ f ih =>
      intro st task hE htask p hp
      cases task with
      | node src =>
          simp only [planStep] at hp
          by_cases h1 : src ∈ st.exclOps
          · rw [if_pos h1] at hp
            exact Or.inl hp
          · rw [if_neg h1] at hp
            by_cases h2 : st.inclOps ≠ [] ∧ src ∉ st.inclOps
            · rw [if_pos h2] at hp
              exact Or.inl hp
            · rw [if_neg h2] at hp
              exact ih st (.tensors src _) hE (fun hc => h1 (hE hc)) p hp
      | tensors src ts0 =>
          cases ts0 with
          | nil => simp only [planStep] at hp; exact Or.inl hp
          | cons t ts =>
              simp only [planStep] at hp
              by_cases hsm : swappedMaxTensors ctx st = true
              · rw [if_pos hsm] at hp
                exact Or.inl hp
              · rw [if_neg hsm] at hp
                by_cases hb : branchFrontier ctx st.g t = []
                · rw [if_pos hb] at hp
                  exact ih st (.tensors src ts) hE htask p hp
                · rw [if_neg hb] at hp
                  have hEp2 : E ⊆ (doFusion ctx
                      (doSwapout ctx st src t (branchFrontier ctx st.g t)).1
                      src (doSwapout ctx st src t
                        (branchFrontier ctx st.g t)).2
                      t (branchFrontier ctx st.g t)).1.exclOps :=
                    fun a ha => doFusion_exclOps_sub ctx _ src _ t _
                      (doSwapout_exclOps_sub ctx st src t _ (hE ha))
                  have hE3 : E ⊆ (planStep ctx f
                      (doFusion ctx
                        (doSwapout ctx st src t
                          (branchFrontier ctx st.g t)).1
                        src (doSwapout ctx st src t
                          (branchFrontier ctx st.g t)).2
                        t (branchFrontier ctx st.g t)).1
                      (.dests src (doSwapout ctx st src t
                          (branchFrontier ctx st.g t)).2 t
                        (doFusion ctx
                          (doSwapout ctx st src t
                            (branchFrontier ctx st.g t)).1
                          src (doSwapout ctx st src t
                            (branchFrontier ctx st.g t)).2
                          t (branchFrontier ctx st.g t)).2)).exclOps :=
                    fun a ha => planStep_exclOps_sub ctx f _ _ (hEp2 ha)
                  rcases ih _ (.tensors src ts) hE3 htask p hp with hp1 | hnE
                  · rcases ih _ (.dests src _ t _) hEp2 htask p hp1 with
                      hp2 | hnE
                    · rw [doFusion_swapLog] at hp2
                      rcases doSwapout_swapLog ctx st src t
                          (branchFrontier ctx st.g t) with hc | hc
                      · rw [hc] at hp2
                        exact Or.inl hp2
                      · rw [hc] at hp2
                        rcases List.mem_cons.mp hp2 with rfl | hp3
                        · exact Or.inr htask
                        · exact Or.inl hp3
                    · exact Or.inr hnE
                  · exact Or.inr hnE
      | dests src so t ds0 =>
          cases ds0 with
          | nil => simp only [planStep] at hp; exact Or.inl hp
          | cons d ds =>
              simp only [planStep] at hp
              by_cases h1 : ctx.topo.getOrder d < 0
              · rw [if_pos h1] at hp
                by_cases h2 : src ∈ ctx.grad
                · rw [if_pos h2] at hp
                  exact ih st (.dests src so t ds) hE htask p hp
                · rw [if_neg h2] at hp
                  have hEn : E ⊆ (planStep ctx f st
                      (.nodes (findNewSrcOps ctx st.g d))).exclOps :=
                    fun a ha => planStep_exclOps_sub ctx f st _ (hE ha)
                  rcases ih _ (.dests src so t ds) hEn htask p hp with
                    hp1 | hnE
                  · exact ih st (.nodes _) hE trivial p hp1
                  · exact Or.inr hnE
              · rw [if_neg h1] at hp
                have hEs : E ⊆ (swapinAndCtrl ctx st src (so.getD "") d
                    t).exclOps := by
                  rw [swapinAndCtrl_exclOps]
                  exact fun a ha => List.mem_append_left _ (hE ha)
                rcases ih _ (.dests src so t ds) hEs htask p hp with hp1 | hnE
                · rw [swapinAndCtrl_swapLog] at hp1
                  exact Or.inl hp1
                · exact Or.inr hnE
      | nodes ss0 =>
          cases ss0 with
          | nil => simp only [planStep] at hp; exact Or.inl hp
          | cons s ss =>
              simp only [planStep] at hp
              have hE1 : E ⊆ (planStep ctx f st (.node s)).exclOps :=
                fun a ha => planStep_exclOps_sub ctx f st _ (hE ha)
              rcases ih _ (.nodes ss) hE1 trivial p hp with hp1 | hnE
              · exact ih st (.node s) hE trivial p hp1
              · exact Or.inr hnE

/-- Every swap-out record produced by the planning pass has a source
outside any set protected by the exclusion set. -/
theorem doActionLoop_swapLog (ctx : Ctx) (E : List String) :
    ∀ (f : Nat) (st : RunState) (opn closed : List String),
      E ⊆ st.exclOps →
      ∀ p ∈ (doActionLoop ctx f st opn closed).swapLog,
        p ∈ st.swapLog ∨ p.1 ∉ E := by
  intro f
  induction f with
  | zero => intro st opn closed _ p hp; exact Or.inl hp
  | succ f ih =>
      intro st opn closed hE p hp
      cases opn with
      | nil => simp only [doActionLoop] at hp; exact Or.inl hp
      | cons src rest =>
          simp only [doActionLoop] at hp
          by_cases hsm : swappedMaxTensors ctx
              (planStep ctx (planFuel st.g) st (.node src)) = true
          · rw [if_pos hsm] at hp
            exact planStep_swapLog ctx E _ st (.node src) hE trivial p hp
          · rw [if_neg hsm] at hp
            have hE1 : E ⊆ (planStep ctx (planFuel st.g) st
                (.node src)).exclOps :=
              fun a ha => planStep_exclOps_sub ctx _ st _ (hE ha)
            rcases ih _ _ _ hE1 p hp with hp1 | h
            · exact planStep_swapLog ctx E _ st (.node src) hE trivial p hp1
            · exact Or.inr h

/-- Membership in the right operand of a set union. -/
theorem mem_listUnion_right (a b : List String) (x : String) (h : x ∈ b) :
    x ∈ listUnion a b := by
  unfold listUnion
  by_cases hx : x ∈ a
  · exact List.mem_append_left _ hx
  · refine List.mem_append_right _ ?_
    rw [List.mem_dedup]
    exact List.mem_filter.mpr ⟨h, by simpa using hx⟩

/-- The constructor always joins the atomic types into the excluded
types. -/
theorem init_atomic_excl (a : InitArgs) (c : Conf) (h : init a = .ok c) :
    ATOMIC_TYPES ⊆ c.exclTypes := by
  unfold init at h
  by_cases hs : a.optimizerScopes = []
  · rw [if_pos hs] at h
    exact Except.noConfusion h
  · rw [if_neg hs] at h
    have hc := Except.ok.inj h
    intro x hx
    rw [← hc]
    exact mem_listUnion_right _ _ _ hx

/-- A successful scope-and-type filter contains every operation of the
within set whose type is among the requested types. -/
theorem filterScopesAndTypes_type_mem (g : Graph)
    (within scopes types : List String) (r : List String)
    (hok : filterScopesAndTypes g within scopes types = .ok r)
    (o : OpData) (ho : o ∈ g.ops) (hw : o.name ∈ within)
    (hty : o.ty ∈ types) : o.name ∈ r := by
  unfold filterScopesAndTypes at hok
  cases hs : scopeFilterLoop g within scopes with
  | error e =>
      simp only [hs] at hok
      exact Except.noConfusion hok
  | ok scopeOps =>
      simp only [hs] at hok
      split at hok
      · exact Except.noConfusion hok
      · have hr := Except.ok.inj hok
        rw [← hr]
        refine mem_listUnion_right _ _ _ ?_
        refine List.mem_map_of_mem _ ?_
        refine List.mem_filter.mpr ⟨List.mem_filter.mpr ⟨ho, ?_⟩, ?_⟩
        · simpa using hw
        · simpa using hty

/-- C9: for every configuration (including any user-supplied include
sets) and every reachable operation whose type is in the fixed atomic
set, the planner never relocates that operation outputs: no swap-out is
ever recorded for any output value of such an operation (operations not
reachable from the seeds are never visited by the planner at all). -/
theorem atomic_types_never_swapped_out (a : InitArgs) (c : Conf)
    (g : Graph) (o : OpData) (t : String) (grad seeds : List String)
    (hinit : init a = .ok c)
    (ho : o ∈ g.ops) (hty : o.ty ∈ ATOMIC_TYPES)
    (hb : buildGradientOps g c.optimizerScopes = .ok grad)
    (hsd : getSeedOps g c grad = .ok seeds)
    (hr : o.name ∈ unionWalks g seeds) :
    (o.name, t) ∉ (runFull c g).1.swapLog := by
  intro hmem
  by_cases h0 : c.nTensors = 0
  · unfold runFull at hmem
    rw [if_pos h0] at hmem
    exact (List.not_mem_nil _) hmem
  · unfold runFull at hmem
    rw [if_neg h0] at hmem
    simp only [hb, hsd] at hmem
    by_cases hmk : (unionWalks g seeds).any
        (fun op => strHasSub op "lms/swap") = true
    · rw [if_pos hmk] at hmem
      exact (List.not_mem_nil _) hmem
    · rw [if_neg hmk] at hmem
      cases hexcl : filterScopesAndTypes g (unionWalks g seeds)
          c.exclScopes c.exclTypes with
      | error e =>
          simp only [hexcl] at hmem
          exact (List.not_mem_nil _) hmem
      | ok excl =>
          cases hincl : filterScopesAndTypes g (unionWalks g seeds)
              c.inclScopes c.inclTypes with
          | error e =>
              simp only [hexcl, hincl] at hmem
              exact (List.not_mem_nil _) hmem
          | ok incl =>
              simp only [hexcl, hincl] at hmem
              have hoexcl : o.name ∈ excl :=
                filterScopesAndTypes_type_mem g (unionWalks g seeds)
                  c.exclScopes c.exclTypes excl hexcl o ho hr
                  (init_atomic_excl a c hinit hty)
              rcases doActionLoop_swapLog _ excl (planFuel g) _ seeds []
                  (fun x hx => hx) (o.name, t) hmem with hin | hnot
              · exact (List.not_mem_nil _) hin
              · exact hnot hoexcl

/-- Closed instance for atomic_types_never_swapped_out. -/
theorem atomic_types_never_swapped_out_witness :
    ("Const" ∈ ATOMIC_TYPES) ∧
    (("K", "k:0") ∉ (runFull confBase gC9).1.swapLog) :=
  ⟨by decide,
    atomic_types_never_swapped_out aC9 confBase gC9
      ⟨"K", "Const", [], ["k:0"], []⟩ "k:0" ["opt/C", "opt/D"] ["K"]
      rfl (by decide) (by decide) rfl rfl (by decide)⟩

end Theorems

end LMS
